import Mathlib

/-!
Shallow embedding of the Mesh engine of the mpm repository
(src/include/mesh.h, src/include/mesh.tcc).

Entity internals that are external to the excerpt (Node, Cell and Particle
member functions, the Container and Map templates, the HDF5 table layer and
the MPI primitives) are modelled from the spec; every such definition carries
a doc comment starting with "Modelled from the spec:".  Double-precision
payloads (coordinates, velocities, masses, state variables, nodal
quantities) are carried as Int: the claims only move these values around or
add independently contributed values once, so an exact carrier is faithful.
-/

namespace MPM

/-- 64-bit unsigned entity id (mpm::Index from the repository headers). -/
abbrev Index : Type := Nat

/-- std::numeric_limits of mpm::Index max: the sentinel cell id meaning
"particle not located in any cell" (mesh.tcc line 747). -/
def sentinelIndex : Index := 2 ^ 64 - 1

/-- C++ conversion of a signed int (or of a 64-bit Index) to a 32-bit
unsigned, as happens in `unsigned id = set[i]` (mesh.tcc line 816) and when
an int set id is looked up in a robin_map keyed by unsigned. -/
def toUnsigned (i : Int) : Nat := (i % (2 ^ 32 : Int)).toNat

/-- Modelled from the spec: a background-mesh node (Node is an external
collaborator, spec section 3).  Only the fields the Mesh engine reads are
kept: the id, the set of MPI ranks of cells touching the node (kept as a
deduplicated list, standing for std::set of unsigned), and the dense halo
ghost id. -/
structure Node where
  id : Index
  mpi_ranks : List Nat := []
  ghost_id : Nat := 0
deriving DecidableEq, Repr

/-- Modelled from the spec: a mesh cell (Cell is an external collaborator,
spec section 3): id, owning MPI rank, member node ids, neighbour cell ids
(cells sharing at least one node) and the ids of particles currently located
inside the cell.  The geometric point-containment test lives in the mesh
model (field geo of Mesh below) keyed by cell id, so that Cell stays plain
data. -/
structure Cell where
  id : Index
  rank : Nat := 0
  nodes_id : List Index := []
  neighbours : List Index := []
  particles : List Index := []
deriving DecidableEq, Repr

/-- Modelled from the spec: a material point (Particle is an external
collaborator, spec section 3): id, coordinates, owning cell id (sentinel
when unlocated) and the physical payload fields named by the claims. -/
structure Particle where
  id : Index
  coords : List Int := []
  cell_id : Index := sentinelIndex
  velocity : List Int := []
  mass : Int := 0
  statevars : List Int := []
  material_id : Nat := 0
deriving DecidableEq, Repr

/-- Modelled from the spec (section 6): the fixed-layout particle
interchange record (hdf5_particle.h is not part of the excerpt, only its
twophase extension header is): id, coordinates, velocity, mass, state
variables and material id. -/
structure HDF5Particle where
  id : Index
  coords : List Int := []
  velocity : List Int := []
  mass : Int := 0
  statevars : List Int := []
  material_id : Nat := 0
deriving DecidableEq, Repr

instance : Inhabited HDF5Particle :=
  ⟨{ id := 0, coords := [], velocity := [], mass := 0, statevars := [], material_id := 0 }⟩

/-- Modelled from the spec: a velocity-constraint value object
(velocity_constraint.h is external): set id, direction, velocity. -/
structure VelocityConstraint where
  setid : Int := -1
  dir : Nat := 0
  velocity : Int := 0
deriving DecidableEq, Repr

/-- Modelled from the spec (section 4.1): Container::add keeps insertion
order and "fails if check_duplicates is true and an entity with the same id
already exists"; with check_duplicates false the entity is appended
unconditionally.  Returns (insertion_status, new contents). -/
def cadd (idOf : α → Index) (xs : List α) (x : α) (check_duplicates : Bool) :
    Bool × List α :=
  if check_duplicates && xs.any (fun e => idOf e == idOf x) then (false, xs)
  else (true, xs ++ [x])

/-- Modelled from the spec (section 4.1): Container::remove "fails (returns
false) if the entity is absent"; when present every element carrying the
entity id is dropped. -/
def cremove (idOf : α → Index) (xs : List α) (i : Index) : Bool × List α :=
  if xs.any (fun e => idOf e == i) then (true, xs.filter (fun e => !(idOf e == i)))
  else (false, xs)

/-- Modelled from the spec (section 4.1): Map::insert registers id -> entity
for O(1) id lookup; inserting an id that is already present leaves the map
unchanged (robin_map insert semantics: no overwrite). -/
def minsert (m : List (Index × α)) (i : Index) (x : α) : List (Index × α) :=
  if m.any (fun e => e.1 == i) then m else m ++ [(i, x)]

/-- Modelled from the spec (section 4.1): Map::remove drops the entry for an
id, returning false when the id is absent. -/
def mremove (m : List (Index × α)) (i : Index) : Bool × List (Index × α) :=
  if m.any (fun e => e.1 == i) then (true, m.filter (fun e => !(e.1 == i)))
  else (false, m)

/-- Modelled from the spec (section 4.1): Map id lookup. -/
def mfind (m : List (Index × α)) (i : Index) : Option α :=
  (m.find? (fun e => e.1 == i)).map Prod.snd

/-- std::map<Index, Index>::insert for particles_cell_ids_ (mesh.tcc lines
468 and 476): inserts the pair only when the key is absent. -/
def pcidInsert (l : List (Index × Index)) (i v : Index) : List (Index × Index) :=
  if l.any (fun e => e.1 == i) then l else l ++ [(i, v)]

/-- The Mesh state (mesh.h lines 443-503), restricted to the members the
claims exercise.  Containers hold entity values in insertion order; maps
pair each id with the entity it resolves to; geo is the external
point-containment oracle (Cell::is_point_in_cell keyed by cell id),
modelled from the spec.  tdim is the Tdim template parameter. -/
structure Mesh where
  tdim : Nat := 2
  geo : Index → List Int → Bool := fun _ _ => false
  nodes : List Node := []
  map_nodes : List (Index × Node) := []
  cells : List Cell := []
  map_cells : List (Index × Cell) := []
  particles : List Particle := []
  map_particles : List (Index × Particle) := []
  particles_cell_ids : List (Index × Index) := []
  domain_shared_nodes : List Index := []
  nhalo_nodes : Nat := 0
  particle_sets : List (Nat × List Index) := []
  particle_velocity_constraints : List VelocityConstraint := []
  materials : List Nat := []

/-- mesh.tcc lines 49-57: add the node to the container; only on success
also register it in the id map. -/
def Mesh.add_node (m : Mesh) (n : Node) (check_duplicates : Bool) : Bool × Mesh :=
  let ca := cadd Node.id m.nodes n check_duplicates
  if ca.1 then
    (true, { m with nodes := ca.2, map_nodes := minsert m.map_nodes n.id n })
  else (false, { m with nodes := ca.2 })

/-- mesh.tcc lines 59-66: remove from the container, and only when that
succeeded (short-circuit of the C++ conjunction) also from the map. -/
def Mesh.remove_node (m : Mesh) (n : Node) : Bool × Mesh :=
  let rc := cremove Node.id m.nodes n.id
  if rc.1 then
    let rm := mremove m.map_nodes n.id
    (rm.1, { m with nodes := rc.2, map_nodes := rm.2 })
  else (false, { m with nodes := rc.2 })

/-- mesh.tcc lines 257-265: same pattern as add_node, for cells. -/
def Mesh.add_cell (m : Mesh) (c : Cell) (check_duplicates : Bool) : Bool × Mesh :=
  let ca := cadd Cell.id m.cells c check_duplicates
  if ca.1 then
    (true, { m with cells := ca.2, map_cells := minsert m.map_cells c.id c })
  else (false, { m with cells := ca.2 })

/-- mesh.tcc lines 267-274: same pattern as remove_node, for cells. -/
def Mesh.remove_cell (m : Mesh) (c : Cell) : Bool × Mesh :=
  let rc := cremove Cell.id m.cells c.id
  if rc.1 then
    let rm := mremove m.map_cells c.id
    (rm.1, { m with cells := rc.2, map_cells := rm.2 })
  else (false, { m with cells := rc.2 })

/-- Modelled from the spec (section 4.2 step 1): the particle tests whether
its coordinates still map into a valid reference-coordinate range inside its
currently assigned cell, i.e. whether the cell fetched from map_cells still
geometrically contains the particle (mesh.tcc lines 748-751; the C++ first
re-resolves the cell pointer through map_cells_). -/
def Mesh.compute_reference_location (m : Mesh) (p : Particle) : Bool :=
  match mfind m.map_cells p.cell_id with
  | some c => m.geo c.id p.coords
  | none => false

/-- mesh.tcc lines 742-780 (locate_particle_cells): 1. if the particle holds
a non-sentinel cell id, keep it when the reference-location test succeeds;
2. otherwise test that cell's neighbours (resolved through map_cells) for
point containment and reassign on the first hit; 3. otherwise scan every
cell of the mesh and assign the first cell containing the coordinates (the
concurrent scan has first-match semantics; cells are geometrically
non-overlapping per spec section 4.2).  Returns the status and the particle
after any cell reassignment. -/
def Mesh.locate_step12 (m : Mesh) (p : Particle) : Option Particle :=
  if p.cell_id != sentinelIndex then
    if m.compute_reference_location p then some p
    else
      match mfind m.map_cells p.cell_id with
      | some c =>
        match (c.neighbours.filterMap (fun nb => mfind m.map_cells nb)).find?
            (fun cnb => m.geo cnb.id p.coords) with
        | some cnb => some { p with cell_id := cnb.id }
        | none => none
      | none => none
  else none

def Mesh.locate_particle_cells (m : Mesh) (p : Particle) : Bool × Particle :=
  match m.locate_step12 p with
  | some q => (true, q)
  | none =>
    match m.cells.find? (fun c => m.geo c.id p.coords) with
    | some c => (true, { p with cell_id := c.id })
    | none => (false, p)

/-- mesh.tcc lines 458-486 (add_particle): with checks, first locate the
particle; on success add the (relocated) particle to the container and -
regardless of the container insertion status - insert into
particles_cell_ids_ and map_particles_ (both inserts are no-ops on an
existing key); a failed container add is caught and reported as false.
Without checks the same inserts happen with no localization. -/
def Mesh.add_particle (m : Mesh) (p : Particle) (checks : Bool) : Bool × Mesh :=
  if checks then
    let lp := m.locate_particle_cells p
    if lp.1 then
      let ca := cadd Particle.id m.particles lp.2 checks
      (ca.1, { m with particles := ca.2,
                      particles_cell_ids := pcidInsert m.particles_cell_ids lp.2.id lp.2.cell_id,
                      map_particles := minsert m.map_particles lp.2.id lp.2 })
    else (false, m)
  else
    let ca := cadd Particle.id m.particles p checks
    (ca.1, { m with particles := ca.2,
                    particles_cell_ids := pcidInsert m.particles_cell_ids p.id p.cell_id,
                    map_particles := minsert m.map_particles p.id p })

/-- Modelled from the spec: ParticleBase::remove_cell drops the particle's
owning-cell reference, leaving the sentinel id. -/
def Particle.remove_cell (p : Particle) : Particle :=
  { p with cell_id := sentinelIndex }

/-- Shared-pointer mutation of the particle with a given id: the container
and the map alias the same object in C++, so both views are updated. -/
def Mesh.update_particle (m : Mesh) (i : Index) (f : Particle → Particle) : Mesh :=
  { m with
    particles := m.particles.map (fun p => if p.id == i then f p else p),
    map_particles := m.map_particles.map (fun e => if e.1 == i then (e.1, f e.2) else e) }

/-- mesh.tcc lines 489-497 (remove_particle): drop the particle's cell
reference through the map, then remove from the container and - only when
that succeeded (short-circuit) - from the map.  A lookup miss on an absent
id is a no-op per spec section 7(b) (lookup misses never crash). -/
def Mesh.remove_particle (m : Mesh) (p : Particle) : Bool × Mesh :=
  let m1 := m.update_particle p.id Particle.remove_cell
  let rc := cremove Particle.id m1.particles p.id
  if rc.1 then
    let rm := mremove m1.map_particles p.id
    (rm.1, { m1 with particles := rc.2, map_particles := rm.2 })
  else (false, { m1 with particles := rc.2 })

/-- mesh.tcc lines 499-506 (remove_particle_by_id): same as remove_particle
but addressed by id. -/
def Mesh.remove_particle_by_id (m : Mesh) (i : Index) : Bool × Mesh :=
  let m1 := m.update_particle i Particle.remove_cell
  let rc := cremove Particle.id m1.particles i
  if rc.1 then
    let rm := mremove m1.map_particles i
    (rm.1, { m1 with particles := rc.2, map_particles := rm.2 })
  else (false, { m1 with particles := rc.2 })

/-- One step of the bulk-removal loops (mesh.tcc lines 517-520 and 550-553):
remove the cell reference of the particle and erase it from map_particles_. -/
def eraseParticleFromMap (m : Mesh) (i : Index) : Mesh :=
  let m1 := m.update_particle i Particle.remove_cell
  { m1 with map_particles := (mremove m1.map_particles i).2 }

/-- mesh.tcc lines 509-531 (remove_particles): for a non-empty id list,
erase each id from the map, then clear the container and refill it from the
map in map-iteration order. -/
def Mesh.remove_particles (m : Mesh) (pids : List Index) : Mesh :=
  if pids = [] then m
  else
    let m1 := pids.foldl eraseParticleFromMap m
    { m1 with particles := m1.map_particles.map Prod.snd }

/-- Cell::clear_particle_ids applied through the mesh (the container and the
map alias the same cell object). -/
def Mesh.clear_cell_particle_ids (m : Mesh) (cid : Index) : Mesh :=
  { m with
    cells := m.cells.map (fun c => if c.id == cid then { c with particles := [] } else c),
    map_cells := m.map_cells.map
      (fun e => if e.1 == cid then (e.1, { e.2 with particles := [] }) else e) }

/-- mesh.tcc lines 535-565 (remove_all_nonrank_particles): for every cell
that is non-empty and owned by another rank, erase its particles from the
map and clear the cell's particle-id list; finally rebuild the particle
container from the map. -/
def Mesh.remove_all_nonrank_particles (m : Mesh) (mpi_rank : Nat) : Mesh :=
  let m1 := m.cells.foldl
    (fun acc c =>
      if c.particles ≠ [] ∧ c.rank ≠ mpi_rank then
        (c.particles.foldl eraseParticleFromMap acc).clear_cell_particle_ids c.id
      else acc) m
  { m1 with particles := m1.map_particles.map Prod.snd }

/-- mesh.tcc lines 783-793 (iterate_over_particles): the blocked TBB range
applies the operator to particles_[i] for every index of the container; the
list of visited particles in index order. -/
def Mesh.iterate_over_particles_visited (m : Mesh) : List Particle :=
  (List.range m.particles.length).filterMap (fun i => m.particles.get? i)

/-- mesh.tcc lines 796-823 (iterate_over_particle_set): set id -1 iterates
the whole particle container; otherwise particle_sets_.at(set_id) throws
std::out_of_range for an unknown set id (modelled as Except.error, there is
no enclosing try/catch), and each member id is truncated to unsigned and
resolved through map_particles_, silently skipping absent ids. -/
def Mesh.iterate_over_particle_set_visited (m : Mesh) (set_id : Int) :
    Except String (List Particle) :=
  if set_id == -1 then
    .ok ((List.range m.particles.length).filterMap (fun i => m.particles.get? i))
  else
    match m.particle_sets.find? (fun e => e.1 == toUnsigned set_id) with
    | none => .error "out_of_range: particle set not found"
    | some s =>
      .ok (s.2.filterMap (fun pid => mfind m.map_particles (pid % 2 ^ 32)))

/-- mesh.tcc lines 997-1017 (create_particle_velocity_constraint): accept
only when the set id is -1 or names an existing particle set and the
constraint direction is below Tdim; every failure is caught and converted to
a false status with the list untouched. -/
def Mesh.create_particle_velocity_constraint (m : Mesh) (set_id : Int)
    (c : VelocityConstraint) : Bool × Mesh :=
  if set_id == -1 || m.particle_sets.any (fun e => e.1 == toUnsigned set_id) then
    if c.dir < m.tdim then
      (true, { m with particle_velocity_constraints :=
                 m.particle_velocity_constraints ++ [c] })
    else (false, m)
  else (false, m)

/-- Modelled from the spec: ParticleBase::hdf5 serializes the particle into
the interchange record (spec section 6: stable field order across write and
read). -/
def Particle.hdf5 (p : Particle) : HDF5Particle :=
  { id := p.id, coords := p.coords, velocity := p.velocity, mass := p.mass,
    statevars := p.statevars, material_id := p.material_id }

/-- Modelled from the spec: ParticleBase::initialise_particle re-hydrates a
live particle from an interchange record, restoring each record field. -/
def initialise_particle (p : Particle) (h : HDF5Particle) : Particle :=
  { p with id := h.id, coords := h.coords, velocity := h.velocity,
           mass := h.mass, statevars := h.statevars, material_id := h.material_id }

/-- mesh.tcc lines 1217-1252 (write_particles_hdf5): the table written to
the file holds one record per particle, in container iteration order (the
HDF5 table layer is external; the file is modelled as the record list). -/
def Mesh.write_particles_hdf5 (m : Mesh) : List HDF5Particle :=
  m.particles.map Particle.hdf5

/-- The per-particle loop of read_particles_hdf5 (mesh.tcc lines 1277-1285):
particle i takes record i of the read buffer (a buffer slot past the record
count is unspecified data, modelled by the default record);
materials_.at(material_id) throws for an unknown material id - there is no
enclosing try/catch, so the error propagates. -/
def readInit (materials : List Nat) :
    List Particle → List HDF5Particle → Except String (List Particle)
  | [], _ => .ok []
  | p :: ps, recs =>
    let h := recs.headD default
    if materials.contains h.material_id then
      match readInit materials ps recs.tail with
      | .ok rest => .ok (initialise_particle p h :: rest)
      | .error e => .error e
    else .error "material id not found"

/-- mesh.tcc lines 1255-1289 (read_particles_hdf5): read the table back and
re-initialise the existing particles in container order from consecutive
records. -/
def Mesh.read_particles_hdf5 (m : Mesh) (file : List HDF5Particle) :
    Except String Mesh :=
  (readInit m.materials m.particles file).map (fun ps => { m with particles := ps })

/-- The set of MPI ranks of all cells touching a node, as accumulated by
clearing every node's rank set and letting each cell add its rank to its
member nodes (mesh.tcc lines 674-688; Cell::assign_mpi_rank_to_nodes is
modelled from the spec: it inserts the cell's rank into the rank set of each
of the cell's nodes). -/
def touchingRanks (cells : List Cell) (nid : Index) : List Nat :=
  (cells.filterMap (fun c => if c.nodes_id.contains nid then some c.rank else none)).dedup

/-- A node shared between MPI domains: touched by more than one rank. -/
def sharedNode (n : Node) : Bool :=
  decide (1 < n.mpi_ranks.length)

/-- A shared node the given rank participates in. -/
def ownedShared (r : Nat) (n : Node) : Bool :=
  sharedNode n && n.mpi_ranks.contains r

/-- Phase 1 of find_domain_shared_nodes (mesh.tcc lines 674-688): every
node's rank set becomes exactly the ranks of the cells touching it. -/
def rankNodes (cells : List Cell) (ns : List Node) : List Node :=
  ns.map (fun n => { n with mpi_ranks := touchingRanks cells n.id })

/-- The ghost-id part of the node loop of find_domain_shared_nodes (mesh.tcc
lines 709-720, default non-USE_HALO_EXCHANGE variant): walking the node
container with a counter, every shared node receives the counter as its
dense ghost id and the counter increments by one. -/
def assignGhostNodes : Nat → List Node → List Node
  | _, [] => []
  | k, n :: ns =>
    if sharedNode n then { n with ghost_id := k } :: assignGhostNodes (k + 1) ns
    else n :: assignGhostNodes k ns

/-- The final value of the nhalo_nodes_ counter: one slot per shared node. -/
def countShared (ns : List Node) : Nat :=
  (ns.filter sharedNode).length

/-- The domain_shared_nodes_ contents built by the same loop: the ids of the
shared nodes whose rank set contains the local rank, in container order. -/
def sharedList (r : Nat) (ns : List Node) : List Index :=
  (ns.filter (ownedShared r)).map Node.id

/-- mesh.tcc lines 672-722 (find_domain_shared_nodes, default allreduce
variant): recompute every node's touching-rank set from the cells, then in
one pass over the node container assign dense ghost ids to all shared nodes,
count them into nhalo_nodes_, and collect the locally owned shared nodes
into domain_shared_nodes_ (the single C++ loop is split into its three
independent components; they interact only through the shared-node test). -/
def Mesh.find_domain_shared_nodes (m : Mesh) (mpi_rank : Nat) : Mesh :=
  let ns1 := rankNodes m.cells m.nodes
  { m with nodes := assignGhostNodes 0 ns1,
           domain_shared_nodes := sharedList mpi_rank ns1,
           nhalo_nodes := countShared ns1 }

/-- The gather phase of the allreduce variant of nodal_halo_exchange
(mesh.tcc lines 186-194): a dense buffer of nhalo_nodes_ zeros in which
every domain-shared node writes its getter value at its ghost id (the
parallel_for_each writes to disjoint slots; modelled as a left fold). -/
def bufStep (ns : List Node) (getter : Index → Int) (buf : List Int)
    (nid : Index) : List Int :=
  match ns.find? (fun n => n.id == nid) with
  | some n => buf.set n.ghost_id (getter nid)
  | none => buf

def fillBuf (m : Mesh) (getter : Index → Int) : List Int :=
  m.domain_shared_nodes.foldl (bufStep m.nodes getter)
    (List.replicate m.nhalo_nodes 0)

/-- Modelled from the spec: MPI_Allreduce with MPI_SUM (mesh.tcc lines
196-197) produces, on every rank, the elementwise sum of all ranks'
buffers. -/
def allreduceSum (nranks : Nat) (bufs : Nat → List Int) (len : Nat) : List Int :=
  (List.range nranks).foldl
    (fun acc r => List.zipWith (· + ·) acc (bufs r))
    (List.replicate len 0)

/-- The value the scatter phase of nodal_halo_exchange (mesh.tcc lines
199-203) writes back through the setter at a node of a rank: the reduced
buffer entry at the node's ghost id.  The per-rank states are the one global
mesh after each rank's find_domain_shared_nodes; getter r nid is the nodal
quantity rank r contributes at node nid. -/
def Mesh.nodal_halo_exchange_value (m : Mesh) (nranks : Nat)
    (getter : Nat → Index → Int) (r : Nat) (nid : Index) : Int :=
  match (m.find_domain_shared_nodes r).nodes.find? (fun n => n.id == nid) with
  | some n =>
    (allreduceSum nranks
      (fun rq => fillBuf (m.find_domain_shared_nodes rq) (getter rq))
      ((m.find_domain_shared_nodes r).nhalo_nodes)).getD n.ghost_id 0
  | none => 0

/-! Helper lemmas. -/

theorem filterMap_get?_range {α : Type} (l : List α) :
    (List.range l.length).filterMap (fun i => l.get? i) = l := by
  induction l with
  | nil => simp
  | cons a t ih =>
    have hc : ((fun i => (a :: t).get? i) ∘ Nat.succ) = fun i => t.get? i := by
      funext i
      simp
    simp only [List.length_cons, List.range_succ_eq_map, List.filterMap_cons,
      List.get?_cons_zero, List.filterMap_map, hc, ih]

theorem update_particle_pcid (m : Mesh) (i : Index) (f : Particle → Particle) :
    (m.update_particle i f).particles_cell_ids = m.particles_cell_ids := rfl

theorem eraseParticleFromMap_pcid (m : Mesh) (i : Index) :
    (eraseParticleFromMap m i).particles_cell_ids = m.particles_cell_ids := rfl

theorem foldl_erase_pcid (pids : List Index) (m : Mesh) :
    (pids.foldl eraseParticleFromMap m).particles_cell_ids = m.particles_cell_ids := by
  induction pids generalizing m with
  | nil => rfl
  | cons a t ih => rw [List.foldl_cons, ih, eraseParticleFromMap_pcid]

theorem clear_cell_particle_ids_pcid (m : Mesh) (cid : Index) :
    (m.clear_cell_particle_ids cid).particles_cell_ids = m.particles_cell_ids := rfl

theorem foldl_nonrank_pcid (cs : List Cell) (m : Mesh) (r : Nat) :
    (cs.foldl
      (fun acc c =>
        if c.particles ≠ [] ∧ c.rank ≠ r then
          (c.particles.foldl eraseParticleFromMap acc).clear_cell_particle_ids c.id
        else acc) m).particles_cell_ids = m.particles_cell_ids := by
  induction cs generalizing m with
  | nil => rfl
  | cons c t ih =>
    rw [List.foldl_cons, ih]
    split
    · rw [clear_cell_particle_ids_pcid, foldl_erase_pcid]
    · rfl

theorem ite_pcid {c : Prop} [Decidable c] {v : List (Index × Index)}
    (a b : Bool × Mesh) (h1 : a.2.particles_cell_ids = v)
    (h2 : b.2.particles_cell_ids = v) :
    (if c then a else b).2.particles_cell_ids = v := by
  split
  · exact h1
  · exact h2

/-! C10 -/

/-- C10: every particle-removal operation (remove_particle,
remove_particle_by_id, remove_particles, remove_all_nonrank_particles)
leaves the particle-id-to-cell-id map particles_cell_ids_ (the map returned
by particles_cell_ids()) unchanged: entries for removed particle ids stay in
it even though the particles are gone from the container and lookup map. -/
theorem remove_ops_preserve_particles_cell_ids (m : Mesh) (p : Particle)
    (i : Index) (pids : List Index) (r : Nat) :
    ((m.remove_particle p).2).particles_cell_ids = m.particles_cell_ids ∧
    ((m.remove_particle_by_id i).2).particles_cell_ids = m.particles_cell_ids ∧
    (m.remove_particles pids).particles_cell_ids = m.particles_cell_ids ∧
    (m.remove_all_nonrank_particles r).particles_cell_ids = m.particles_cell_ids := by
  refine ⟨?_, ?_, ?_, ?_⟩
  · exact ite_pcid _ _ rfl rfl
  · exact ite_pcid _ _ rfl rfl
  · unfold Mesh.remove_particles
    split
    · rfl
    · exact foldl_erase_pcid pids m
  · unfold Mesh.remove_all_nonrank_particles
    exact foldl_nonrank_pcid m.cells m r

/-! C7 -/

/-- C7: iterate_over_particle_set with set id -1 visits exactly the
particles visited by iterate_over_particles: every particle of the
container, once each, in the same index order. -/
theorem iterate_set_all_eq_iterate_particles (m : Mesh) :
    m.iterate_over_particle_set_visited (-1) =
      Except.ok m.iterate_over_particles_visited ∧
    m.iterate_over_particles_visited = m.particles := by
  constructor
  · rfl
  · exact filterMap_get?_range m.particles

/-! C9 -/

/-- C9: a particle velocity constraint with direction at least Tdim is
rejected with a false status and the stored constraint list (indeed the
whole mesh) unchanged; with direction below Tdim and set id -1 or an
existing particle set, the call returns true and appends the constraint. -/
theorem create_particle_velocity_constraint_spec (m : Mesh) (set_id : Int)
    (c : VelocityConstraint) :
    (m.tdim ≤ c.dir → m.create_particle_velocity_constraint set_id c = (false, m)) ∧
    (c.dir < m.tdim → (set_id = -1 ∨ ∃ e ∈ m.particle_sets, e.1 = toUnsigned set_id) →
      m.create_particle_velocity_constraint set_id c =
        (true, { m with particle_velocity_constraints :=
                   m.particle_velocity_constraints ++ [c] })) := by
  constructor
  · intro h
    have hnd : ¬ c.dir < m.tdim := not_lt.mpr h
    unfold Mesh.create_particle_velocity_constraint
    rw [if_neg hnd]
    split
    · rfl
    · rfl
  · intro hd hs
    have hcond : (set_id == -1 ||
        m.particle_sets.any (fun e => e.1 == toUnsigned set_id)) = true := by
      rcases hs with h1 | ⟨e, he, he2⟩
      · simp [h1]
      · refine Bool.or_eq_true_iff.mpr (Or.inr ?_)
        exact List.any_eq_true.mpr ⟨e, he, by simp [he2]⟩
    unfold Mesh.create_particle_velocity_constraint
    rw [if_pos hcond, if_pos hd]

/-- A mesh with one particle set, used to instantiate the constraint
theorem. -/
def meshWithSet : Mesh := { tdim := 2, particle_sets := [(3, [0])] }

/-- Witness for C9: at Tdim 2, direction 5 is rejected leaving the mesh
unchanged, and direction 0 on the existing set 3 is appended. -/
theorem create_particle_velocity_constraint_spec_witness :
    meshWithSet.create_particle_velocity_constraint 3
        { setid := 3, dir := 5, velocity := 1 } = (false, meshWithSet) ∧
    meshWithSet.create_particle_velocity_constraint 3
        { setid := 3, dir := 0, velocity := 1 } =
      (true, { meshWithSet with particle_velocity_constraints :=
                 meshWithSet.particle_velocity_constraints ++
                   [{ setid := 3, dir := 0, velocity := 1 }] }) :=
  ⟨(create_particle_velocity_constraint_spec meshWithSet 3 _).1 (by decide),
   (create_particle_velocity_constraint_spec meshWithSet 3 _).2 (by decide)
     (Or.inr ⟨(3, [0]), by simp [meshWithSet], by decide⟩)⟩

/-! Lemmas on the domain-shared-node pass. -/

theorem assignGhostNodes_nil (k : Nat) : assignGhostNodes k [] = [] := rfl

theorem assignGhostNodes_cons (k : Nat) (n : Node) (ns : List Node) :
    assignGhostNodes k (n :: ns) =
      if sharedNode n then { n with ghost_id := k } :: assignGhostNodes (k + 1) ns
      else n :: assignGhostNodes k ns := rfl

theorem sharedNode_ghost (n : Node) (k : Nat) :
    sharedNode { n with ghost_id := k } = sharedNode n := rfl

theorem ownedShared_ghost (r : Nat) (n : Node) (k : Nat) :
    ownedShared r { n with ghost_id := k } = ownedShared r n := rfl

theorem node_ghost_id (n : Node) (k : Nat) :
    ({ n with ghost_id := k } : Node).id = n.id := rfl

theorem node_ghost_ranks (n : Node) (k : Nat) :
    ({ n with ghost_id := k } : Node).mpi_ranks = n.mpi_ranks := rfl

theorem countShared_cons (n : Node) (ns : List Node) :
    countShared (n :: ns) =
      if sharedNode n then countShared ns + 1 else countShared ns := by
  simp only [countShared, List.filter_cons]
  split
  · simp
  · rfl

theorem sharedList_cons (r : Nat) (n : Node) (ns : List Node) :
    sharedList r (n :: ns) =
      if ownedShared r n then n.id :: sharedList r ns else sharedList r ns := by
  simp only [sharedList, List.filter_cons]
  split
  · simp
  · rfl

theorem assignGhostNodes_mem {k : Nat} {ns : List Node} {x : Node}
    (hx : x ∈ assignGhostNodes k ns) :
    ∃ y ∈ ns, x.id = y.id ∧ x.mpi_ranks = y.mpi_ranks := by
  induction ns generalizing k with
  | nil => simp [assignGhostNodes_nil] at hx
  | cons n t ih =>
    rw [assignGhostNodes_cons] at hx
    by_cases h : sharedNode n
    · rw [if_pos h] at hx
      rcases List.mem_cons.mp hx with h1 | h2
      · exact ⟨n, List.mem_cons_self n t, by simp [h1]⟩
      · obtain ⟨y, hy, e⟩ := ih h2
        exact ⟨y, List.mem_cons_of_mem n hy, e⟩
    · rw [if_neg h] at hx
      rcases List.mem_cons.mp hx with h1 | h2
      · exact ⟨n, List.mem_cons_self n t, by simp [h1]⟩
      · obtain ⟨y, hy, e⟩ := ih h2
        exact ⟨y, List.mem_cons_of_mem n hy, e⟩

theorem assignGhostNodes_ghost_bound {k : Nat} {ns : List Node} {x : Node}
    (hx : x ∈ assignGhostNodes k ns) (hs : sharedNode x = true) :
    k ≤ x.ghost_id ∧ x.ghost_id < k + countShared ns := by
  induction ns generalizing k with
  | nil => simp [assignGhostNodes_nil] at hx
  | cons n t ih =>
    rw [assignGhostNodes_cons] at hx
    rw [countShared_cons]
    by_cases h : sharedNode n
    · rw [if_pos h] at hx
      rw [if_pos h]
      rcases List.mem_cons.mp hx with h1 | h2
      · subst h1
        simp only [node_ghost_id]
        omega
      · have := ih h2
        omega
    · rw [if_neg h] at hx
      rw [if_neg h]
      rcases List.mem_cons.mp hx with h1 | h2
      · subst h1
        exact absurd hs (by simpa using h)
      · exact ih h2

theorem assignGhostNodes_pairwise (k : Nat) (ns : List Node) :
    (assignGhostNodes k ns).Pairwise
      (fun a b => sharedNode a = true → sharedNode b = true →
        a.ghost_id ≠ b.ghost_id) := by
  induction ns generalizing k with
  | nil => simp [assignGhostNodes_nil]
  | cons n t ih =>
    rw [assignGhostNodes_cons]
    by_cases h : sharedNode n
    · rw [if_pos h]
      refine List.Pairwise.cons ?_ (ih (k + 1))
      intro b hb _ hsb
      have := (assignGhostNodes_ghost_bound hb hsb).1
      simp only [node_ghost_id]
      omega
    · rw [if_neg h]
      refine List.Pairwise.cons ?_ (ih k)
      intro b _ hsn _
      exact absurd hsn (by simpa using h)

theorem assignGhostNodes_prop {P : Node → Prop}
    (hP : ∀ n k, P n → P { n with ghost_id := k }) :
    ∀ {ns : List Node} {k : Nat}, (∀ n ∈ ns, P n) →
      ∀ x ∈ assignGhostNodes k ns, P x := by
  intro ns
  induction ns with
  | nil => intro k _ x hx; simp [assignGhostNodes_nil] at hx
  | cons n t ih =>
    intro k hall x hx
    rw [assignGhostNodes_cons] at hx
    by_cases h : sharedNode n
    · rw [if_pos h] at hx
      rcases List.mem_cons.mp hx with h1 | h2
      · subst h1; exact hP n k (hall n (List.mem_cons_self n t))
      · exact ih (fun y hy => hall y (List.mem_cons_of_mem n hy)) x h2
    · rw [if_neg h] at hx
      rcases List.mem_cons.mp hx with h1 | h2
      · exact h1 ▸ hall n (List.mem_cons_self n t)
      · exact ih (fun y hy => hall y (List.mem_cons_of_mem n hy)) x h2

theorem rankNodes_mem {cs : List Cell} {ns : List Node} {x : Node}
    (hx : x ∈ rankNodes cs ns) :
    x.mpi_ranks = touchingRanks cs x.id := by
  obtain ⟨n, _, rfl⟩ := List.mem_map.mp hx
  rfl

theorem find_nodes_ranks (m : Mesh) (r : Nat) :
    ∀ x ∈ (m.find_domain_shared_nodes r).nodes,
      x.mpi_ranks = touchingRanks m.cells x.id := by
  intro x hx
  have hx2 : x ∈ assignGhostNodes 0 (rankNodes m.cells m.nodes) := hx
  have hP : ∀ (n : Node) (k : Nat), n.mpi_ranks = touchingRanks m.cells n.id →
      ({ n with ghost_id := k } : Node).mpi_ranks
        = touchingRanks m.cells (({ n with ghost_id := k } : Node).id) := by
    intro n k h
    simpa [node_ghost_id, node_ghost_ranks] using h
  exact @assignGhostNodes_prop (fun n => n.mpi_ranks = touchingRanks m.cells n.id)
    hP (rankNodes m.cells m.nodes) 0 (fun n hn => rankNodes_mem hn) x hx2

theorem rankNodes_eq_self {cs : List Cell} {l : List Node}
    (h : ∀ x ∈ l, x.mpi_ranks = touchingRanks cs x.id) :
    rankNodes cs l = l := by
  induction l with
  | nil => rfl
  | cons a t ih =>
    have ha : ({ a with mpi_ranks := touchingRanks cs a.id } : Node) = a := by
      rw [← h a (List.mem_cons_self a t)]
    have ht : rankNodes cs t = t := ih (fun x hx => h x (List.mem_cons_of_mem a hx))
    simpa [rankNodes] using And.intro ha (by simpa [rankNodes] using ht)

theorem assignGhostNodes_idem (k : Nat) (ns : List Node) :
    assignGhostNodes k (assignGhostNodes k ns) = assignGhostNodes k ns := by
  induction ns generalizing k with
  | nil => rfl
  | cons n t ih =>
    by_cases h : sharedNode n
    · rw [assignGhostNodes_cons, if_pos h, assignGhostNodes_cons,
        sharedNode_ghost, if_pos h, ih]
    · rw [assignGhostNodes_cons, if_neg h, assignGhostNodes_cons, if_neg h, ih]

theorem sharedList_assignGhostNodes (r k : Nat) (ns : List Node) :
    sharedList r (assignGhostNodes k ns) = sharedList r ns := by
  induction ns generalizing k with
  | nil => rfl
  | cons n t ih =>
    by_cases h : sharedNode n
    · rw [assignGhostNodes_cons, if_pos h, sharedList_cons, ownedShared_ghost,
        sharedList_cons, node_ghost_id, ih]
    · rw [assignGhostNodes_cons, if_neg h, sharedList_cons, sharedList_cons, ih]

theorem countShared_assignGhostNodes (k : Nat) (ns : List Node) :
    countShared (assignGhostNodes k ns) = countShared ns := by
  induction ns generalizing k with
  | nil => rfl
  | cons n t ih =>
    by_cases h : sharedNode n
    · rw [assignGhostNodes_cons, if_pos h, countShared_cons, sharedNode_ghost,
        countShared_cons, if_pos h, if_pos h, ih]
    · rw [assignGhostNodes_cons, if_neg h, countShared_cons, countShared_cons,
        if_neg h, if_neg h, ih]

/-! C5 -/

/-- C5: running find_domain_shared_nodes twice in a row, with no change to
cells, nodes or cell rank ownership in between, leaves the
domain_shared_nodes set, every node (in particular every ghost_id) and the
halo-node count identical to their values after the first run. -/
theorem find_domain_shared_nodes_idempotent (m : Mesh) (r : Nat) :
    ((m.find_domain_shared_nodes r).find_domain_shared_nodes r).domain_shared_nodes
        = (m.find_domain_shared_nodes r).domain_shared_nodes ∧
    ((m.find_domain_shared_nodes r).find_domain_shared_nodes r).nodes
        = (m.find_domain_shared_nodes r).nodes ∧
    ((m.find_domain_shared_nodes r).find_domain_shared_nodes r).nhalo_nodes
        = (m.find_domain_shared_nodes r).nhalo_nodes := by
  have hfix : rankNodes m.cells ((m.find_domain_shared_nodes r).nodes)
      = (m.find_domain_shared_nodes r).nodes :=
    rankNodes_eq_self (find_nodes_ranks m r)
  have hnodes : (m.find_domain_shared_nodes r).nodes
      = assignGhostNodes 0 (rankNodes m.cells m.nodes) := rfl
  refine ⟨?_, ?_, ?_⟩
  · show sharedList r (rankNodes m.cells ((m.find_domain_shared_nodes r).nodes))
        = sharedList r (rankNodes m.cells m.nodes)
    rw [hfix, hnodes, sharedList_assignGhostNodes]
  · show assignGhostNodes 0 (rankNodes m.cells ((m.find_domain_shared_nodes r).nodes))
        = (m.find_domain_shared_nodes r).nodes
    rw [hfix, hnodes, assignGhostNodes_idem]
  · show countShared (rankNodes m.cells ((m.find_domain_shared_nodes r).nodes))
        = countShared (rankNodes m.cells m.nodes)
    rw [hfix, hnodes, countShared_assignGhostNodes]

/-! C4 -/

theorem sharedList_mem {r : Nat} {ns : List Node} {x : Index} :
    x ∈ sharedList r ns ↔ ∃ nd ∈ ns, ownedShared r nd = true ∧ nd.id = x := by
  simp only [sharedList, List.mem_map, List.mem_filter]
  constructor
  · rintro ⟨nd, ⟨h1, h2⟩, h3⟩
    exact ⟨nd, h1, h2, h3⟩
  · rintro ⟨nd, h1, h2, h3⟩
    exact ⟨nd, ⟨h1, h2⟩, h3⟩

theorem ownedShared_iff {r : Nat} {nd : Node} :
    ownedShared r nd = true ↔ 1 < nd.mpi_ranks.length ∧ r ∈ nd.mpi_ranks := by
  simp [ownedShared, sharedNode]

/-- C4: after find_domain_shared_nodes (default dense-ghost-id variant), a
node is in the local rank's domain_shared_nodes set iff the set of MPI ranks
of the cells touching it has more than one element and contains the local
rank; and every node touched by more than one rank carries a ghost id below
nhalo_nodes, pairwise distinct over the shared nodes, hence usable as an
index into a flat halo-exchange buffer. -/
theorem find_domain_shared_nodes_spec (m : Mesh) (r : Nat) :
    (∀ n ∈ (m.find_domain_shared_nodes r).nodes,
      (n.id ∈ (m.find_domain_shared_nodes r).domain_shared_nodes ↔
        1 < (touchingRanks m.cells n.id).length ∧ r ∈ touchingRanks m.cells n.id)) ∧
    (∀ n ∈ (m.find_domain_shared_nodes r).nodes,
      1 < (touchingRanks m.cells n.id).length →
        n.ghost_id < (m.find_domain_shared_nodes r).nhalo_nodes) ∧
    ((((m.find_domain_shared_nodes r).nodes.filter sharedNode).map Node.ghost_id).Nodup) := by
  have hnodes : (m.find_domain_shared_nodes r).nodes
      = assignGhostNodes 0 (rankNodes m.cells m.nodes) := rfl
  have hshared : (m.find_domain_shared_nodes r).domain_shared_nodes
      = sharedList r (rankNodes m.cells m.nodes) := rfl
  have hnhalo : (m.find_domain_shared_nodes r).nhalo_nodes
      = countShared (rankNodes m.cells m.nodes) := rfl
  refine ⟨?_, ?_, ?_⟩
  · intro n hn
    rw [hshared]
    constructor
    · intro hmem
      obtain ⟨nd, hnd, hos, hid⟩ := sharedList_mem.mp hmem
      have hr : nd.mpi_ranks = touchingRanks m.cells nd.id := rankNodes_mem hnd
      have := ownedShared_iff.mp hos
      rw [hr, hid] at this
      exact this
    · intro hcond
      rw [hnodes] at hn
      obtain ⟨y, hy, hyid, hyranks⟩ := assignGhostNodes_mem hn
      have hr : y.mpi_ranks = touchingRanks m.cells y.id := rankNodes_mem hy
      refine sharedList_mem.mpr ⟨y, hy, ownedShared_iff.mpr ?_, hyid.symm⟩
      rw [hr, ← hyid]
      exact hcond
  · intro n hn hlen
    have hr : n.mpi_ranks = touchingRanks m.cells n.id := find_nodes_ranks m r n hn
    have hs : sharedNode n = true := by
      simp [sharedNode, hr, hlen]
    rw [hnodes] at hn
    have := (assignGhostNodes_ghost_bound hn hs).2
    rw [hnhalo]
    simpa using this
  · rw [hnodes]
    have hp := assignGhostNodes_pairwise 0 (rankNodes m.cells m.nodes)
    have hpf := hp.filter sharedNode
    rw [List.Nodup, List.pairwise_map]
    refine hpf.imp_of_mem ?_
    intro a b ha hb hrel
    exact hrel (List.of_mem_filter ha) (List.of_mem_filter hb)

/-- A 1D three-node, two-cell, two-rank mesh whose middle node is shared. -/
def twoRankMesh : Mesh :=
  { nodes := [{ id := 0 }, { id := 1 }, { id := 2 }],
    cells := [{ id := 10, rank := 0, nodes_id := [0, 1] },
              { id := 11, rank := 1, nodes_id := [1, 2] }] }

/-- Witness for C4: on rank 0 of twoRankMesh, the middle node (touched by
ranks 0 and 1) lands in domain_shared_nodes and its ghost id indexes the
halo buffer. -/
theorem find_domain_shared_nodes_spec_witness :
    ({ id := 1, mpi_ranks := [0, 1], ghost_id := 0 } : Node).id ∈
        (twoRankMesh.find_domain_shared_nodes 0).domain_shared_nodes ∧
    ({ id := 1, mpi_ranks := [0, 1], ghost_id := 0 } : Node).ghost_id <
        (twoRankMesh.find_domain_shared_nodes 0).nhalo_nodes :=
  ⟨((find_domain_shared_nodes_spec twoRankMesh 0).1
      { id := 1, mpi_ranks := [0, 1], ghost_id := 0 } (by decide)).mpr
      ⟨by decide, by decide⟩,
   (find_domain_shared_nodes_spec twoRankMesh 0).2.1
      { id := 1, mpi_ranks := [0, 1], ghost_id := 0 } (by decide) (by decide)⟩

/-! C8 -/

/-- The empty mesh (all containers empty, defaults everywhere). -/
def emptyMesh : Mesh := {}

/-- Counterexample for C8: the claim says no exception ever propagates out
of a public Mesh operation, but iterate_over_particle_set on an unknown set
id (here 5, on a mesh with no particle sets) calls particle_sets_.at outside
any try/catch, so std::out_of_range propagates to the caller. -/
theorem iterate_unknown_set_throws :
    emptyMesh.iterate_over_particle_set_visited 5 =
      Except.error "out_of_range: particle set not found" := rfl

theorem headD_eq_getD_zero {α : Type} [Inhabited α] (l : List α) :
    l.headD default = l.getD 0 default := by
  cases l <;> rfl

theorem tail_getD {α : Type} (l : List α) (i : Nat) (d : α) :
    l.tail.getD i d = l.getD (i + 1) d := by
  cases l <;> rfl

theorem readInit_ok (mats : List Nat) :
    ∀ (ps : List Particle) (recs : List HDF5Particle),
      (∀ i < ps.length, mats.contains ((recs.getD i default).material_id) = true) →
      ∃ out, readInit mats ps recs = Except.ok out := by
  intro ps
  induction ps with
  | nil => exact fun recs _ => ⟨[], rfl⟩
  | cons p t ih =>
    intro recs h
    have h0 : mats.contains ((recs.headD default).material_id) = true := by
      rw [headD_eq_getD_zero]
      exact h 0 (by simp)
    obtain ⟨out, hout⟩ := ih recs.tail (fun i hi => by
      rw [tail_getD]
      exact h (i + 1) (by simpa using Nat.succ_lt_succ hi))
    refine ⟨initialise_particle p (recs.headD default) :: out, ?_⟩
    simp only [readInit, h0, if_true, hout]

/-- C8 (amended): among the embedded Mesh operations the failure policy is:
iterate_over_particle_set completes without an exception exactly when the
set id is -1 or names an existing particle set (an unknown id propagates
std::out_of_range), and read_particles_hdf5 completes without an exception
whenever every consumed record's material id is registered (an unknown
material id propagates from materials_.at); the other embedded operations
(entity add/remove, constraint creation, localization) return plain status
values for every input. -/
theorem mesh_exception_boundary (m : Mesh) (set_id : Int)
    (file : List HDF5Particle) :
    ((∃ l, m.iterate_over_particle_set_visited set_id = Except.ok l) ↔
      (set_id = -1 ∨ ∃ e ∈ m.particle_sets, e.1 = toUnsigned set_id)) ∧
    ((∀ i < m.particles.length,
        m.materials.contains ((file.getD i default).material_id) = true) →
      ∃ m2, m.read_particles_hdf5 file = Except.ok m2) := by
  constructor
  · by_cases h1 : set_id = -1
    · simp [Mesh.iterate_over_particle_set_visited, h1]
    · have hb : (set_id == -1) = false := by simpa using h1
      unfold Mesh.iterate_over_particle_set_visited
      rw [hb]
      simp only [Bool.false_eq_true, if_false]
      cases hf : m.particle_sets.find? (fun e => e.1 == toUnsigned set_id) with
      | none =>
        constructor
        · rintro ⟨l, hl⟩
          exact absurd hl (by simp)
        · rintro (h | ⟨e, he, hee⟩)
          · exact absurd h h1
          · have := List.find?_eq_none.mp hf e he
            simp [hee] at this
      | some s =>
        constructor
        · intro _
          right
          exact ⟨s, List.mem_of_find?_eq_some hf, by simpa using List.find?_some hf⟩
        · intro _
          exact ⟨_, rfl⟩
  · intro hmat
    obtain ⟨out, hout⟩ := readInit_ok m.materials m.particles file hmat
    refine ⟨{ m with particles := out }, ?_⟩
    unfold Mesh.read_particles_hdf5
    rw [hout]
    rfl

/-- Witness for C8 (amended): on the empty mesh, set id -1 iterates without
an exception and reading an empty record file succeeds. -/
theorem mesh_exception_boundary_witness :
    (∃ l, emptyMesh.iterate_over_particle_set_visited (-1) = Except.ok l) ∧
    (∃ m2, emptyMesh.read_particles_hdf5 [] = Except.ok m2) :=
  ⟨(mesh_exception_boundary emptyMesh (-1) []).1.mpr (Or.inl rfl),
   (mesh_exception_boundary emptyMesh (-1) []).2
     (fun i hi => absurd hi (by simp [emptyMesh]))⟩

/-! C6 -/

theorem initialise_hdf5_self (p : Particle) :
    initialise_particle p p.hdf5 = p := rfl

theorem readInit_roundtrip (mats : List Nat) :
    ∀ (ps : List Particle), (∀ p ∈ ps, mats.contains p.material_id = true) →
      readInit mats ps (ps.map Particle.hdf5) = Except.ok ps := by
  intro ps
  induction ps with
  | nil => intro _; rfl
  | cons p t ih =>
    intro h
    have h0 : mats.contains ((((p :: t).map Particle.hdf5).headD default).material_id)
        = true := h p (List.mem_cons_self p t)
    have ht : readInit mats t (t.map Particle.hdf5) = Except.ok t :=
      ih (fun q hq => h q (List.mem_cons_of_mem p hq))
    simp only [List.map_cons, readInit, List.headD_cons, List.tail_cons]
    rw [show (Particle.hdf5 p).material_id = p.material_id from rfl,
      h p (List.mem_cons_self p t), if_pos rfl, ht]
    show Except.ok (initialise_particle p p.hdf5 :: t) = Except.ok (p :: t)
    rw [initialise_hdf5_self]

/-- C6: exporting all particles with write_particles_hdf5 and re-importing
the same table with read_particles_hdf5 (record count equals particle count
by construction; every particle's material id registered, which every
creation path guarantees) succeeds and restores each particle's
coordinates, velocity, mass and state variables exactly, matching records
to particles in container iteration order. -/
theorem write_read_particles_roundtrip (m : Mesh)
    (hmat : ∀ p ∈ m.particles, m.materials.contains p.material_id = true) :
    ∃ m2, m.read_particles_hdf5 m.write_particles_hdf5 = Except.ok m2 ∧
      List.Forall₂ (fun q p => q.coords = p.coords ∧ q.velocity = p.velocity ∧
        q.mass = p.mass ∧ q.statevars = p.statevars) m2.particles m.particles := by
  have h1 : readInit m.materials m.particles m.write_particles_hdf5
      = Except.ok m.particles := readInit_roundtrip m.materials m.particles hmat
  refine ⟨{ m with particles := m.particles }, ?_, ?_⟩
  · unfold Mesh.read_particles_hdf5
    rw [h1]
    rfl
  · exact List.forall₂_same.mpr (fun p _ => ⟨rfl, rfl, rfl, rfl⟩)

/-- A one-particle mesh with its material registered. -/
def roundtripMesh : Mesh :=
  { particles := [{ id := 0, coords := [2, 3], velocity := [1, 0], mass := 7,
                    statevars := [4], material_id := 1 }],
    materials := [1] }

/-- Witness for C6: the one-particle mesh round-trips. -/
theorem write_read_particles_roundtrip_witness :
    ∃ m2, roundtripMesh.read_particles_hdf5 roundtripMesh.write_particles_hdf5
        = Except.ok m2 ∧
      List.Forall₂ (fun q p => q.coords = p.coords ∧ q.velocity = p.velocity ∧
        q.mass = p.mass ∧ q.statevars = p.statevars) m2.particles
        roundtripMesh.particles :=
  write_read_particles_roundtrip roundtripMesh (by decide)

/-! C1 -/

theorem mfind_mem {α : Type} {l : List (Index × α)} {i : Index} {x : α}
    (h : mfind l i = some x) : (i, x) ∈ l := by
  unfold mfind at h
  cases hf : l.find? (fun e => e.1 == i) with
  | none => rw [hf] at h; cases h
  | some e =>
    rw [hf] at h
    have hx : e.2 = x := by simpa using h
    have hmem := List.mem_of_find?_eq_some hf
    have hpred : e.1 = i := by simpa using List.find?_some hf
    have : (i, x) = e := by
      cases e
      simp_all
    rw [this]
    exact hmem

theorem locate_step12_some (m : Mesh) (p q : Particle)
    (hmap : ∀ e ∈ m.map_cells, e.2.id = e.1 ∧ e.2 ∈ m.cells)
    (h : m.locate_step12 p = some q) :
    q.coords = p.coords ∧
      ∃ c ∈ m.cells, c.id = q.cell_id ∧ m.geo c.id p.coords = true := by
  unfold Mesh.locate_step12 at h
  by_cases hs : (p.cell_id != sentinelIndex) = true
  · rw [if_pos hs] at h
    by_cases hr : m.compute_reference_location p = true
    · rw [if_pos hr] at h
      have hpq : p = q := by simpa using h
      unfold Mesh.compute_reference_location at hr
      cases hmf : mfind m.map_cells p.cell_id with
      | none => rw [hmf] at hr; exact absurd hr (by simp)
      | some c =>
        rw [hmf] at hr
        obtain ⟨hcid, hcmem⟩ := hmap _ (mfind_mem hmf)
        refine ⟨by rw [hpq], c, hcmem, ?_, hr⟩
        rw [hcid, ← hpq]
    · rw [if_neg hr] at h
      cases hmf : mfind m.map_cells p.cell_id with
      | none => rw [hmf] at h; cases h
      | some c =>
        rw [hmf] at h
        dsimp only at h
        cases hnb : (c.neighbours.filterMap (fun nb => mfind m.map_cells nb)).find?
            (fun cnb => m.geo cnb.id p.coords) with
        | none => rw [hnb] at h; cases h
        | some cnb =>
          rw [hnb] at h
          have hq : ({ p with cell_id := cnb.id } : Particle) = q := by simpa using h
          obtain ⟨nb, _, hm2⟩ :=
            List.mem_filterMap.mp (List.mem_of_find?_eq_some hnb)
          obtain ⟨_, hcnbmem⟩ := hmap _ (mfind_mem hm2)
          have hgeo : m.geo cnb.id p.coords = true := by
            simpa using List.find?_some hnb
          exact ⟨by rw [← hq], cnb, hcnbmem, by rw [← hq], hgeo⟩
  · rw [if_neg hs] at h
    cases h

/-- C1 (amended): on a mesh whose cell map is consistent with its cell
container (and whose particle cell id, when not the sentinel, resolves in
the map - the inputs on which the C++ lookups are defined),
locate_particle_cells returns true exactly when some cell of the mesh
geometrically contains the particle's coordinates, and whenever it returns
true the cell assigned to the returned particle is a mesh cell whose
point-containment test holds for the particle's (unchanged) coordinates.
After a false return a previously assigned stale non-sentinel cell id is
kept, so the containment guarantee is conditional on the true status, not
on a non-sentinel cell id. -/
theorem locate_particle_cells_spec (m : Mesh) (p : Particle)
    (hmap : ∀ e ∈ m.map_cells, e.2.id = e.1 ∧ e.2 ∈ m.cells)
    (hcid : p.cell_id ≠ sentinelIndex → (mfind m.map_cells p.cell_id).isSome = true)
    (hnbr : ∀ e ∈ m.map_cells, ∀ nb ∈ e.2.neighbours,
      (mfind m.map_cells nb).isSome = true) :
    ((m.locate_particle_cells p).1 = true ↔
      ∃ c ∈ m.cells, m.geo c.id p.coords = true) ∧
    ((m.locate_particle_cells p).1 = true →
      ∃ c ∈ m.cells, c.id = (m.locate_particle_cells p).2.cell_id ∧
        m.geo c.id ((m.locate_particle_cells p).2.coords) = true) := by
  cases h12 : m.locate_step12 p with
  | some q =>
    have hL : m.locate_particle_cells p = (true, q) := by
      unfold Mesh.locate_particle_cells
      rw [h12]
    obtain ⟨hco, c, hcm, hcid2, hgeo⟩ := locate_step12_some m p q hmap h12
    rw [hL]
    refine ⟨⟨fun _ => ⟨c, hcm, hgeo⟩, fun _ => rfl⟩, fun _ => ⟨c, hcm, hcid2, ?_⟩⟩
    show m.geo c.id q.coords = true
    rw [hco]
    exact hgeo
  | none =>
    cases hsc : m.cells.find? (fun c => m.geo c.id p.coords) with
    | some c =>
      have hL : m.locate_particle_cells p = (true, { p with cell_id := c.id }) := by
        unfold Mesh.locate_particle_cells
        rw [h12, hsc]
      have hcm := List.mem_of_find?_eq_some hsc
      have hgeo : m.geo c.id p.coords = true := by simpa using List.find?_some hsc
      rw [hL]
      exact ⟨⟨fun _ => ⟨c, hcm, hgeo⟩, fun _ => rfl⟩, fun _ => ⟨c, hcm, rfl, hgeo⟩⟩
    | none =>
      have hL : m.locate_particle_cells p = (false, p) := by
        unfold Mesh.locate_particle_cells
        rw [h12, hsc]
      rw [hL]
      constructor
      · constructor
        · intro h
          exact absurd h (by simp)
        · rintro ⟨c, hc, hgeo⟩
          have := List.find?_eq_none.mp hsc c hc
          simp [hgeo] at this
      · intro h
        exact absurd h (by simp)

/-- A mesh holding one cell (id 7) whose containment test rejects every
point, with a particle whose stale cell id is 7. -/
def staleMesh : Mesh :=
  { geo := fun _ _ => false, cells := [{ id := 7 }], map_cells := [(7, { id := 7 })] }

/-- The stale particle of the C1 counterexample. -/
def staleParticle : Particle := { id := 0, coords := [5], cell_id := 7 }

/-- Counterexample for C1 as stated: after locate_particle_cells fails (no
cell contains the particle), the particle still carries its stale
non-sentinel cell id 7, and the point-containment test of that assigned
cell is false for the particle's coordinates - so "non-sentinel cell id
afterwards implies containment" does not hold. -/
theorem locate_stale_cell_counterexample :
    (staleMesh.locate_particle_cells staleParticle).1 = false ∧
    (staleMesh.locate_particle_cells staleParticle).2.cell_id ≠ sentinelIndex ∧
    staleMesh.geo (staleMesh.locate_particle_cells staleParticle).2.cell_id
      ((staleMesh.locate_particle_cells staleParticle).2.coords) = false := by
  refine ⟨rfl, ?_, rfl⟩
  show (7 : Nat) ≠ 2 ^ 64 - 1
  decide

/-- A mesh with one cell (id 42) containing every point. -/
def locateMesh : Mesh :=
  { geo := fun cid _ => cid == 42, cells := [{ id := 42 }],
    map_cells := [(42, { id := 42 })] }

/-- The unlocated particle of the C1 witness. -/
def locateParticle : Particle := { id := 0, coords := [1] }

/-- Witness for C1 (amended): the unlocated particle is found by the full
scan and ends up assigned to cell 42. -/
theorem locate_particle_cells_spec_witness :
    (locateMesh.locate_particle_cells locateParticle).1 = true ∧
    (locateMesh.locate_particle_cells locateParticle).2.cell_id = 42 :=
  ⟨(locate_particle_cells_spec locateMesh locateParticle (by decide)
      (fun h => absurd rfl h) (by decide)).1.mpr
      ⟨{ id := 42 }, by decide, by decide⟩,
   rfl⟩

/-! C2: container/map synchronization under add/remove sequences. -/

theorem any_idOf_iff {α : Type} (idOf : α → Index) (xs : List α) (i : Index) :
    (xs.any (fun e => idOf e == i)) = true ↔ i ∈ xs.map idOf := by
  simp only [List.any_eq_true, List.mem_map, beq_iff_eq]

theorem cadd_dup {α : Type} {idOf : α → Index} {xs : List α} {x : α} {chk : Bool}
    (hchk : chk = true) (hdup : idOf x ∈ xs.map idOf) :
    cadd idOf xs x chk = (false, xs) := by
  unfold cadd
  rw [if_pos]
  rw [hchk, (any_idOf_iff idOf xs (idOf x)).mpr hdup]
  rfl

theorem cadd_new {α : Type} {idOf : α → Index} {xs : List α} {x : α} {chk : Bool}
    (h : chk = false ∨ idOf x ∉ xs.map idOf) :
    cadd idOf xs x chk = (true, xs ++ [x]) := by
  unfold cadd
  rw [if_neg]
  intro hc
  rcases h with h | h
  · rw [h] at hc
    simp at hc
  · exact h ((any_idOf_iff idOf xs (idOf x)).mp (Bool.and_elim_right hc))

theorem cadd_fail {α : Type} {idOf : α → Index} {xs : List α} {x : α} {chk : Bool}
    (h : (cadd idOf xs x chk).1 = false) : (cadd idOf xs x chk).2 = xs := by
  by_cases hc : (chk && xs.any (fun e => idOf e == idOf x)) = true
  · unfold cadd
    rw [if_pos hc]
  · unfold cadd at h
    rw [if_neg hc] at h
    cases h

theorem minsert_mem {α : Type} {mp : List (Index × α)} {i : Index} (x : α)
    (h : i ∈ mp.map Prod.fst) : minsert mp i x = mp := by
  unfold minsert
  rw [if_pos ((any_idOf_iff Prod.fst mp i).mpr h)]

theorem minsert_fresh {α : Type} {mp : List (Index × α)} {i : Index} (x : α)
    (h : i ∉ mp.map Prod.fst) : minsert mp i x = mp ++ [(i, x)] := by
  unfold minsert
  rw [if_neg (fun hc => h ((any_idOf_iff Prod.fst mp i).mp hc))]

theorem cremove_absent {α : Type} {idOf : α → Index} {xs : List α} {i : Index}
    (h : i ∉ xs.map idOf) : cremove idOf xs i = (false, xs) := by
  unfold cremove
  rw [if_neg (fun hc => h ((any_idOf_iff idOf xs i).mp hc))]

theorem cremove_present {α : Type} {idOf : α → Index} {xs : List α} {i : Index}
    (h : i ∈ xs.map idOf) :
    cremove idOf xs i = (true, xs.filter (fun e => !(idOf e == i))) := by
  unfold cremove
  rw [if_pos ((any_idOf_iff idOf xs i).mpr h)]

theorem mremove_absent {α : Type} {mp : List (Index × α)} {i : Index}
    (h : i ∉ mp.map Prod.fst) : mremove mp i = (false, mp) := by
  unfold mremove
  rw [if_neg (fun hc => h ((any_idOf_iff Prod.fst mp i).mp hc))]

theorem mremove_present {α : Type} {mp : List (Index × α)} {i : Index}
    (h : i ∈ mp.map Prod.fst) :
    mremove mp i = (true, mp.filter (fun e => !(e.1 == i))) := by
  unfold mremove
  rw [if_pos ((any_idOf_iff Prod.fst mp i).mpr h)]

theorem map_filter_ids {α : Type} (idOf : α → Index) (xs : List α) (i : Index) :
    (xs.filter (fun e => !(idOf e == i))).map idOf
      = (xs.map idOf).filter (fun j => !(j == i)) := by
  induction xs with
  | nil => rfl
  | cons a t ih =>
    simp only [List.map_cons, List.filter_cons]
    cases h : (idOf a == i) with
    | true => simpa [h] using ih
    | false => simpa [h] using ih

/-- The invariant the spec requires of a container and its paired id map:
no duplicate ids on either side and the same id membership. -/
def synced (cont mp : List Index) : Prop :=
  cont.Nodup ∧ mp.Nodup ∧ (∀ i ∈ cont, i ∈ mp) ∧ (∀ i ∈ mp, i ∈ cont)

theorem synced_length {cont mp : List Index} (h : synced cont mp) :
    cont.length = mp.length :=
  ((List.perm_ext_iff_of_nodup h.1 h.2.1).mpr
    (fun a => ⟨h.2.2.1 a, h.2.2.2 a⟩)).length_eq

theorem synced_add {α : Type} (idOf : α → Index) {xs : List α}
    {mp : List (Index × α)} (x : α) (chk : Bool)
    (h : synced (xs.map idOf) (mp.map Prod.fst))
    (hok : chk = true ∨ idOf x ∉ xs.map idOf) :
    synced (((cadd idOf xs x chk).2).map idOf)
      ((minsert mp (idOf x) x).map Prod.fst) ∧
    ((cadd idOf xs x chk).1 = false → minsert mp (idOf x) x = mp) := by
  by_cases hdup : idOf x ∈ xs.map idOf
  · have hchk : chk = true := by
      rcases hok with hok | hok
      · exact hok
      · exact absurd hdup hok
    rw [cadd_dup hchk hdup, minsert_mem x (h.2.2.1 _ hdup)]
    exact ⟨h, fun _ => rfl⟩
  · rw [cadd_new (Or.inr hdup)]
    have hmp : idOf x ∉ mp.map Prod.fst := fun hc => hdup (h.2.2.2 _ hc)
    rw [minsert_fresh x hmp]
    refine ⟨⟨?_, ?_, ?_, ?_⟩, ?_⟩
    · rw [List.map_append]
      simp only [List.map_cons, List.map_nil]
      exact List.nodup_append.mpr ⟨h.1, List.nodup_singleton _,
        by simpa [List.disjoint_singleton] using hdup⟩
    · rw [List.map_append]
      simp only [List.map_cons, List.map_nil]
      exact List.nodup_append.mpr ⟨h.2.1, List.nodup_singleton _,
        by simpa [List.disjoint_singleton] using hmp⟩
    · intro i hi
      rw [List.map_append] at hi ⊢
      rcases List.mem_append.mp hi with hi | hi
      · exact List.mem_append.mpr (Or.inl (h.2.2.1 _ hi))
      · exact List.mem_append.mpr (Or.inr (by simpa using hi))
    · intro i hi
      rw [List.map_append] at hi ⊢
      rcases List.mem_append.mp hi with hi | hi
      · exact List.mem_append.mpr (Or.inl (h.2.2.2 _ hi))
      · exact List.mem_append.mpr (Or.inr (by simpa using hi))
    · intro hfalse
      simp at hfalse

theorem synced_add_cond {α : Type} (idOf : α → Index) {xs : List α}
    {mp : List (Index × α)} (x : α) (chk : Bool)
    (h : synced (xs.map idOf) (mp.map Prod.fst))
    (hok : chk = true ∨ idOf x ∉ xs.map idOf) :
    synced (((cadd idOf xs x chk).2).map idOf)
      ((if (cadd idOf xs x chk).1 then minsert mp (idOf x) x else mp).map Prod.fst) := by
  by_cases hb : (cadd idOf xs x chk).1 = true
  · rw [if_pos hb]
    exact (synced_add idOf x chk h hok).1
  · have hb2 : (cadd idOf xs x chk).1 = false := by
      cases hv : (cadd idOf xs x chk).1
      · rfl
      · exact absurd hv hb
    rw [if_neg hb, cadd_fail hb2]
    exact h

theorem synced_remove {α : Type} (idOf : α → Index) {xs : List α}
    {mp : List (Index × α)} (i : Index)
    (h : synced (xs.map idOf) (mp.map Prod.fst)) :
    synced (((cremove idOf xs i).2).map idOf)
      ((if (cremove idOf xs i).1 then (mremove mp i).2 else mp).map Prod.fst) := by
  by_cases hin : i ∈ xs.map idOf
  · rw [cremove_present hin]
    have hmp : i ∈ mp.map Prod.fst := h.2.2.1 _ hin
    simp only [if_pos]
    rw [mremove_present hmp]
    rw [map_filter_ids idOf xs i, map_filter_ids Prod.fst mp i]
    refine ⟨h.1.filter _, h.2.1.filter _, ?_, ?_⟩
    · intro j hj
      have := List.mem_filter.mp hj
      exact List.mem_filter.mpr ⟨h.2.2.1 _ this.1, this.2⟩
    · intro j hj
      have := List.mem_filter.mp hj
      exact List.mem_filter.mpr ⟨h.2.2.2 _ this.1, this.2⟩
  · rw [cremove_absent hin]
    simpa using h

/-- Strengthened synchronization invariant of a mesh: each entity container
agrees with its paired id map, with no duplicate ids. -/
def Mesh.wfSync (m : Mesh) : Prop :=
  synced (m.nodes.map Node.id) (m.map_nodes.map Prod.fst) ∧
  synced (m.cells.map Cell.id) (m.map_cells.map Prod.fst) ∧
  synced (m.particles.map Particle.id) (m.map_particles.map Prod.fst)

/-- The observable part of C2: equal sizes and equal id membership of each
container/map pair. -/
def Mesh.inSync (m : Mesh) : Prop :=
  (m.nodes.length = m.map_nodes.length ∧
    (∀ i ∈ m.nodes.map Node.id, i ∈ m.map_nodes.map Prod.fst) ∧
    (∀ i ∈ m.map_nodes.map Prod.fst, i ∈ m.nodes.map Node.id)) ∧
  (m.cells.length = m.map_cells.length ∧
    (∀ i ∈ m.cells.map Cell.id, i ∈ m.map_cells.map Prod.fst) ∧
    (∀ i ∈ m.map_cells.map Prod.fst, i ∈ m.cells.map Cell.id)) ∧
  (m.particles.length = m.map_particles.length ∧
    (∀ i ∈ m.particles.map Particle.id, i ∈ m.map_particles.map Prod.fst) ∧
    (∀ i ∈ m.map_particles.map Prod.fst, i ∈ m.particles.map Particle.id))

theorem wfSync_inSync {m : Mesh} (h : m.wfSync) : m.inSync := by
  obtain ⟨h1, h2, h3⟩ := h
  refine ⟨⟨?_, h1.2.2.1, h1.2.2.2⟩, ⟨?_, h2.2.2.1, h2.2.2.2⟩,
    ⟨?_, h3.2.2.1, h3.2.2.2⟩⟩
  · have := synced_length h1
    simpa using this
  · have := synced_length h2
    simpa using this
  · have := synced_length h3
    simpa using this

/-- The add/remove operations of the claim, as one alphabet. -/
inductive MeshOp where
  | addNode : Node → Bool → MeshOp
  | removeNode : Node → MeshOp
  | addCell : Cell → Bool → MeshOp
  | removeCell : Cell → MeshOp
  | addParticle : Particle → Bool → MeshOp
  | removeParticle : Particle → MeshOp

/-- State reached by one Mesh operation (the returned status is dropped). -/
def applyOp (m : Mesh) : MeshOp → Mesh
  | .addNode n chk => (m.add_node n chk).2
  | .removeNode n => (m.remove_node n).2
  | .addCell c chk => (m.add_cell c chk).2
  | .removeCell c => (m.remove_cell c).2
  | .addParticle p chk => (m.add_particle p chk).2
  | .removeParticle p => (m.remove_particle p).2

/-- State reached by a sequence of Mesh operations. -/
def applyOps (m : Mesh) : List MeshOp → Mesh
  | [] => m
  | op :: ops => applyOps (applyOp m op) ops

/-- An add is safe when it checks duplicates or its id is fresh (removals
are always safe).  Duplicate adds with duplicate checking disabled are the
one way the C++ lets the container and the map diverge. -/
def addOk (m : Mesh) : MeshOp → Prop
  | .addNode n chk => chk = true ∨ n.id ∉ m.nodes.map Node.id
  | .addCell c chk => chk = true ∨ c.id ∉ m.cells.map Cell.id
  | .addParticle p chk => chk = true ∨ p.id ∉ m.particles.map Particle.id
  | .removeNode _ => True
  | .removeCell _ => True
  | .removeParticle _ => True

/-- Every operation of the sequence is safe in the state it runs in. -/
def SafeOps (m : Mesh) : List MeshOp → Prop
  | [] => True
  | op :: ops => addOk m op ∧ SafeOps (applyOp m op) ops

theorem add_node_wf (m : Mesh) (n : Node) (chk : Bool) (hm : m.wfSync)
    (hok : chk = true ∨ n.id ∉ m.nodes.map Node.id) :
    ((m.add_node n chk).2).wfSync := by
  have key := synced_add_cond Node.id n chk hm.1 hok
  unfold Mesh.add_node
  by_cases hb : (cadd Node.id m.nodes n chk).1 = true
  · rw [if_pos hb] at key ⊢
    exact ⟨key, hm.2.1, hm.2.2⟩
  · rw [if_neg hb] at key ⊢
    exact ⟨key, hm.2.1, hm.2.2⟩

theorem add_cell_wf (m : Mesh) (c : Cell) (chk : Bool) (hm : m.wfSync)
    (hok : chk = true ∨ c.id ∉ m.cells.map Cell.id) :
    ((m.add_cell c chk).2).wfSync := by
  have key := synced_add_cond Cell.id c chk hm.2.1 hok
  unfold Mesh.add_cell
  by_cases hb : (cadd Cell.id m.cells c chk).1 = true
  · rw [if_pos hb] at key ⊢
    exact ⟨hm.1, key, hm.2.2⟩
  · rw [if_neg hb] at key ⊢
    exact ⟨hm.1, key, hm.2.2⟩

theorem remove_node_wf (m : Mesh) (n : Node) (hm : m.wfSync) :
    ((m.remove_node n).2).wfSync := by
  have key := synced_remove Node.id n.id hm.1
  unfold Mesh.remove_node
  by_cases hb : (cremove Node.id m.nodes n.id).1 = true
  · rw [if_pos hb] at key ⊢
    exact ⟨key, hm.2.1, hm.2.2⟩
  · rw [if_neg hb] at key ⊢
    exact ⟨key, hm.2.1, hm.2.2⟩

theorem remove_cell_wf (m : Mesh) (c : Cell) (hm : m.wfSync) :
    ((m.remove_cell c).2).wfSync := by
  have key := synced_remove Cell.id c.id hm.2.1
  unfold Mesh.remove_cell
  by_cases hb : (cremove Cell.id m.cells c.id).1 = true
  · rw [if_pos hb] at key ⊢
    exact ⟨hm.1, key, hm.2.2⟩
  · rw [if_neg hb] at key ⊢
    exact ⟨hm.1, key, hm.2.2⟩

theorem locate_step12_id (m : Mesh) (p q : Particle)
    (h : m.locate_step12 p = some q) : q.id = p.id := by
  unfold Mesh.locate_step12 at h
  by_cases hs : (p.cell_id != sentinelIndex) = true
  · rw [if_pos hs] at h
    by_cases hr : m.compute_reference_location p = true
    · rw [if_pos hr] at h
      have : p = q := by simpa using h
      rw [← this]
    · rw [if_neg hr] at h
      cases hmf : mfind m.map_cells p.cell_id with
      | none => rw [hmf] at h; cases h
      | some c =>
        rw [hmf] at h
        dsimp only at h
        cases hnb : (c.neighbours.filterMap (fun nb => mfind m.map_cells nb)).find?
            (fun cnb => m.geo cnb.id p.coords) with
        | none => rw [hnb] at h; cases h
        | some cnb =>
          rw [hnb] at h
          have : ({ p with cell_id := cnb.id } : Particle) = q := by simpa using h
          rw [← this]
  · rw [if_neg hs] at h
    cases h

theorem locate_particle_cells_id (m : Mesh) (p : Particle) :
    (m.locate_particle_cells p).2.id = p.id := by
  unfold Mesh.locate_particle_cells
  cases h12 : m.locate_step12 p with
  | some q =>
    exact locate_step12_id m p q h12
  | none =>
    cases hsc : m.cells.find? (fun c => m.geo c.id p.coords) with
    | some c => rfl
    | none => rfl

theorem add_particle_wf (m : Mesh) (p : Particle) (checks : Bool) (hm : m.wfSync)
    (hok : checks = true ∨ p.id ∉ m.particles.map Particle.id) :
    ((m.add_particle p checks).2).wfSync := by
  unfold Mesh.add_particle
  by_cases hc : checks = true
  · rw [hc]
    simp only [if_true]
    by_cases hl : (m.locate_particle_cells p).1 = true
    · rw [if_pos hl]
      exact ⟨hm.1, hm.2.1,
        (synced_add Particle.id (m.locate_particle_cells p).2 true hm.2.2
          (Or.inl rfl)).1⟩
    · rw [if_neg hl]
      exact hm
  · have hc2 : checks = false := by
      cases hv : checks
      · rfl
      · exact absurd hv hc
    rw [hc2]
    simp only [Bool.false_eq_true, if_false]
    have hfresh : p.id ∉ m.particles.map Particle.id := by
      rcases hok with hok | hok
      · exact absurd hok hc
      · exact hok
    exact ⟨hm.1, hm.2.1,
      (synced_add Particle.id p false hm.2.2 (Or.inr hfresh)).1⟩

theorem update_particle_ids (m : Mesh) (i : Index) (f : Particle → Particle)
    (hf : ∀ p, (f p).id = p.id) :
    (m.update_particle i f).particles.map Particle.id = m.particles.map Particle.id ∧
    (m.update_particle i f).map_particles.map Prod.fst
      = m.map_particles.map Prod.fst := by
  constructor
  · show (m.particles.map (fun p => if p.id == i then f p else p)).map Particle.id
      = m.particles.map Particle.id
    rw [List.map_map]
    have : (Particle.id ∘ fun p => if p.id == i then f p else p) = Particle.id := by
      funext p
      by_cases h : p.id = i
      · simp [h, hf]
      · simp [h]
    rw [this]
  · show (m.map_particles.map (fun e => if e.1 == i then (e.1, f e.2) else e)).map Prod.fst
      = m.map_particles.map Prod.fst
    rw [List.map_map]
    have : (Prod.fst ∘ fun e : Index × Particle =>
        if e.1 == i then (e.1, f e.2) else e) = Prod.fst := by
      funext e
      by_cases h : e.1 = i
      · simp [h]
      · simp [h]
    rw [this]

theorem remove_particle_wf (m : Mesh) (p : Particle) (hm : m.wfSync) :
    ((m.remove_particle p).2).wfSync := by
  have hids := update_particle_ids m p.id Particle.remove_cell (fun _ => rfl)
  have hm1 : synced ((m.update_particle p.id Particle.remove_cell).particles.map
      Particle.id)
      ((m.update_particle p.id Particle.remove_cell).map_particles.map Prod.fst) := by
    rw [hids.1, hids.2]
    exact hm.2.2
  have key := synced_remove Particle.id p.id hm1
  unfold Mesh.remove_particle
  by_cases hb : (cremove Particle.id
      (m.update_particle p.id Particle.remove_cell).particles p.id).1 = true
  · rw [if_pos hb] at key ⊢
    exact ⟨hm.1, hm.2.1, key⟩
  · rw [if_neg hb] at key ⊢
    exact ⟨hm.1, hm.2.1, key⟩

theorem applyOp_wf (m : Mesh) (op : MeshOp) (hm : m.wfSync) (hok : addOk m op) :
    (applyOp m op).wfSync := by
  cases op with
  | addNode n chk => exact add_node_wf m n chk hm hok
  | removeNode n => exact remove_node_wf m n hm
  | addCell c chk => exact add_cell_wf m c chk hm hok
  | removeCell c => exact remove_cell_wf m c hm
  | addParticle p chk => exact add_particle_wf m p chk hm hok
  | removeParticle p => exact remove_particle_wf m p hm

theorem applyOps_wf (ops : List MeshOp) (m : Mesh) (hm : m.wfSync)
    (hops : SafeOps m ops) : (applyOps m ops).wfSync := by
  induction ops generalizing m with
  | nil => exact hm
  | cons op rest ih =>
    exact ih (applyOp m op) (applyOp_wf m op hm hops.1) hops.2

theorem map_id_of {α : Type} {l : List α} {f : α → α} (h : ∀ x ∈ l, f x = x) :
    l.map f = l := by
  induction l with
  | nil => rfl
  | cons a t ih =>
    rw [List.map_cons, h a (List.mem_cons_self a t),
      ih (fun x hx => h x (List.mem_cons_of_mem a hx))]

/-- C2 (amended): starting from a synchronized mesh, any sequence of
add/remove operations in which every add either checks duplicates or adds a
fresh id keeps each entity container and its paired id map at equal size
with the same id membership; a duplicate add under duplicate checking fails
and changes neither structure, and a remove of an absent entity returns
false and changes nothing.  (An unchecked duplicate add - the excluded case
- grows the container without growing the map, see the counterexample.) -/
theorem containers_maps_sync (m : Mesh) (ops : List MeshOp) (hm : m.wfSync)
    (hops : SafeOps m ops) :
    ((applyOps m ops).wfSync ∧ (applyOps m ops).inSync) ∧
    ((∀ n : Node, n.id ∈ m.nodes.map Node.id → m.add_node n true = (false, m)) ∧
     (∀ c : Cell, c.id ∈ m.cells.map Cell.id → m.add_cell c true = (false, m)) ∧
     (∀ p : Particle, p.id ∈ m.particles.map Particle.id →
        (m.add_particle p true).1 = false ∧
        (m.add_particle p true).2.particles = m.particles ∧
        (m.add_particle p true).2.map_particles = m.map_particles)) ∧
    ((∀ n : Node, n.id ∉ m.nodes.map Node.id → m.remove_node n = (false, m)) ∧
     (∀ c : Cell, c.id ∉ m.cells.map Cell.id → m.remove_cell c = (false, m)) ∧
     (∀ p : Particle, p.id ∉ m.particles.map Particle.id →
        m.remove_particle p = (false, m))) := by
  refine ⟨⟨applyOps_wf ops m hm hops, wfSync_inSync (applyOps_wf ops m hm hops)⟩,
    ⟨?_, ?_, ?_⟩, ⟨?_, ?_, ?_⟩⟩
  · intro n hdup
    simp [Mesh.add_node, cadd_dup rfl hdup]
  · intro c hdup
    simp [Mesh.add_cell, cadd_dup rfl hdup]
  · intro p hdup
    by_cases hl : (m.locate_particle_cells p).1 = true
    · have hid : (m.locate_particle_cells p).2.id = p.id :=
        locate_particle_cells_id m p
      have hdup2 : Particle.id (m.locate_particle_cells p).2
          ∈ m.particles.map Particle.id := by
        show (m.locate_particle_cells p).2.id ∈ m.particles.map Particle.id
        rw [hid]
        exact hdup
      have hca : cadd Particle.id m.particles (m.locate_particle_cells p).2 true
          = (false, m.particles) := cadd_dup rfl hdup2
      have hmin : minsert m.map_particles ((m.locate_particle_cells p).2.id)
          (m.locate_particle_cells p).2 = m.map_particles := by
        refine minsert_mem _ ?_
        rw [hid]
        exact hm.2.2.2.2.1 _ hdup
      refine ⟨?_, ?_, ?_⟩ <;> simp [Mesh.add_particle, hl, hca, hmin]
    · refine ⟨?_, ?_, ?_⟩ <;> simp [Mesh.add_particle, hl]
  · intro n habs
    simp [Mesh.remove_node, cremove_absent habs]
  · intro c habs
    simp [Mesh.remove_cell, cremove_absent habs]
  · intro p habs
    have h1 : m.update_particle p.id Particle.remove_cell = m := by
      unfold Mesh.update_particle
      have e1 : m.particles.map
          (fun q => if q.id == p.id then q.remove_cell else q) = m.particles := by
        refine map_id_of (fun q hq => ?_)
        have hne : ¬ q.id = p.id := fun he =>
          habs (he ▸ List.mem_map.mpr ⟨q, hq, rfl⟩)
        simp [hne]
      have e2 : m.map_particles.map
          (fun e => if e.1 == p.id then (e.1, e.2.remove_cell) else e)
            = m.map_particles := by
        refine map_id_of (fun e he => ?_)
        have hmem : e.1 ∈ m.map_particles.map Prod.fst :=
          List.mem_map.mpr ⟨e, he, rfl⟩
        have hne : ¬ e.1 = p.id := fun hee =>
          habs (hee ▸ hm.2.2.2.2.2 _ hmem)
        simp [hne]
      rw [e1, e2]
    have habs2 : p.id ∉ ((m.update_particle p.id Particle.remove_cell).particles.map
        Particle.id) := by
      rw [h1]
      exact habs
    have hcr : cremove Particle.id
        (m.update_particle p.id Particle.remove_cell).particles p.id
          = (false, (m.update_particle p.id Particle.remove_cell).particles) :=
      cremove_absent habs2
    rw [Mesh.remove_particle, hcr]
    simp [h1]

/-- The duplicate-id node of the C2 counterexample. -/
def nodeZero : Node := { id := 0 }

/-- A checked add followed by an unchecked duplicate add of the same node. -/
def desyncOps : List MeshOp :=
  [MeshOp.addNode nodeZero true, MeshOp.addNode nodeZero false]

/-- Counterexample for C2 as stated: after the two-add sequence (the second
add bypasses duplicate checking, as create_nodes permits), the node
container holds two entries while the node map holds one - the sizes of the
paired structures differ, refuting "equal size after any sequence of
add/remove operations". -/
theorem add_unchecked_duplicate_desyncs :
    (applyOps emptyMesh desyncOps).nodes.length = 2 ∧
    (applyOps emptyMesh desyncOps).map_nodes.length = 1 ∧
    (applyOps emptyMesh desyncOps).nodes.length
      ≠ (applyOps emptyMesh desyncOps).map_nodes.length := by
  refine ⟨rfl, rfl, ?_⟩
  decide

theorem emptyMesh_wf : emptyMesh.wfSync := by
  refine ⟨⟨?_, ?_, ?_, ?_⟩, ⟨?_, ?_, ?_, ?_⟩, ⟨?_, ?_, ?_, ?_⟩⟩ <;>
    simp [emptyMesh]

/-- A checked add and a remove of the same node. -/
def syncOps : List MeshOp := [MeshOp.addNode nodeZero true, MeshOp.removeNode nodeZero]

/-- Witness for C2 (amended): the safe add/remove sequence keeps the empty
mesh synchronized. -/
theorem containers_maps_sync_witness : (applyOps emptyMesh syncOps).inSync :=
  (containers_maps_sync emptyMesh syncOps emptyMesh_wf
    ⟨Or.inl rfl, trivial, trivial⟩).1.2

/-! C3: the halo exchange sums the per-rank contributions. -/

theorem getD_set_ne (l : List Int) (i j : Nat) (v : Int) (h : i ≠ j) :
    (l.set i v).getD j 0 = l.getD j 0 := by
  rw [List.getD_eq_getD_get?, List.getD_eq_getD_get?, List.get?_set_ne v l h]

theorem getD_set_eq (l : List Int) (i : Nat) (v : Int) (h : i < l.length) :
    (l.set i v).getD i 0 = v := by
  rw [List.getD_eq_getD_get?, List.get?_set_eq_of_lt v h]
  rfl

theorem getD_replicate_zero (n s : Nat) :
    (List.replicate n (0 : Int)).getD s 0 = 0 := by
  by_cases h : s < n
  · rw [List.getD_eq_getElem _ _ (by simpa using h), List.getElem_replicate]
  · rw [List.getD_eq_default _ _ (by simpa using Nat.le_of_not_lt h)]

theorem zipWith_add_getD :
    ∀ (a b : List Int) (s : Nat), a.length = b.length → s < a.length →
      (List.zipWith (· + ·) a b).getD s 0 = a.getD s 0 + b.getD s 0 := by
  intro a
  induction a with
  | nil =>
    intro b s _ hs
    simp at hs
  | cons x t ih =>
    intro b s hlen hs
    cases b with
    | nil => simp at hlen
    | cons y u =>
      cases s with
      | zero => rfl
      | succ s2 =>
        have := ih u s2 (by simpa using hlen) (by simpa using hs)
        simpa using this

theorem foldl_zipWith_getD (bufs : Nat → List Int) (len : Nat)
    (hlen : ∀ rq, (bufs rq).length = len) (s : Nat) (hs : s < len) :
    ∀ (L : List Nat) (acc : List Int), acc.length = len →
      ((L.foldl (fun a rq => List.zipWith (· + ·) a (bufs rq)) acc).getD s 0
        = acc.getD s 0 + (L.map (fun rq => (bufs rq).getD s 0)).sum) := by
  intro L
  induction L with
  | nil =>
    intro acc _
    simp
  | cons rq t ih =>
    intro acc hacc
    rw [List.foldl_cons]
    have hlen2 : (List.zipWith (· + ·) acc (bufs rq)).length = len := by
      rw [List.length_zipWith, hacc, hlen rq]
      exact Nat.min_self len
    rw [ih _ hlen2,
      zipWith_add_getD acc (bufs rq) s (by rw [hacc, hlen rq]) (by rw [hacc]; exact hs),
      List.map_cons, List.sum_cons]
    ring

theorem bufStep_length (ns : List Node) (g : Index → Int) (buf : List Int)
    (nid : Index) : (bufStep ns g buf nid).length = buf.length := by
  unfold bufStep
  cases h : ns.find? (fun n => n.id == nid) with
  | none => rfl
  | some n => exact List.length_set buf n.ghost_id (g nid)

theorem foldl_bufStep_length (ns : List Node) (g : Index → Int) :
    ∀ (ids : List Index) (buf : List Int),
      (ids.foldl (bufStep ns g) buf).length = buf.length := by
  intro ids
  induction ids with
  | nil => intro buf; rfl
  | cons y t ih =>
    intro buf
    rw [List.foldl_cons, ih, bufStep_length]

theorem foldl_bufStep_getD_ne (ns : List Node) (g : Index → Int) (s : Nat) :
    ∀ (ids : List Index) (buf : List Int),
      (∀ y ∈ ids, ∀ n, ns.find? (fun nd => nd.id == y) = some n →
        n.ghost_id ≠ s) →
      (ids.foldl (bufStep ns g) buf).getD s 0 = buf.getD s 0 := by
  intro ids
  induction ids with
  | nil => intro buf _; rfl
  | cons y t ih =>
    intro buf h
    rw [List.foldl_cons, ih _ (fun z hz => h z (List.mem_cons_of_mem y hz))]
    unfold bufStep
    cases hf : ns.find? (fun nd => nd.id == y) with
    | none => rfl
    | some n => exact getD_set_ne buf n.ghost_id s (g y) (h y (List.mem_cons_self y t) n hf)

theorem foldl_bufStep_getD_target (ns : List Node) (g : Index → Int) (s : Nat)
    (target : Index) (ntar : Node)
    (hfind : ns.find? (fun nd => nd.id == target) = some ntar)
    (hghost : ntar.ghost_id = s) :
    ∀ (ids : List Index) (buf : List Int), s < buf.length → ids.Nodup →
      target ∈ ids →
      (∀ y ∈ ids, y ≠ target → ∀ n, ns.find? (fun nd => nd.id == y) = some n →
        n.ghost_id ≠ s) →
      (ids.foldl (bufStep ns g) buf).getD s 0 = g target := by
  intro ids
  induction ids with
  | nil =>
    intro buf _ _ hmem _
    simp at hmem
  | cons y t ih =>
    intro buf hs hnodup hmem hcoll
    rw [List.foldl_cons]
    by_cases hy : y = target
    · subst hy
      have htn : y ∉ t := (List.nodup_cons.mp hnodup).1
      rw [foldl_bufStep_getD_ne ns g s t _
        (fun z hz n hf => hcoll z (List.mem_cons_of_mem y hz)
          (fun he => htn (he ▸ hz)) n hf)]
      unfold bufStep
      rw [hfind]
      show (buf.set ntar.ghost_id (g y)).getD s 0 = g y
      rw [hghost]
      exact getD_set_eq buf s (g y) hs
    · have hmem2 : target ∈ t := by
        rcases List.mem_cons.mp hmem with h | h
        · exact absurd h.symm hy
        · exact h
      exact ih (bufStep ns g buf y) (by rw [bufStep_length]; exact hs)
        (List.nodup_cons.mp hnodup).2 hmem2
        (fun z hz => hcoll z (List.mem_cons_of_mem y hz))

theorem rankNodes_ids (cs : List Cell) (ns : List Node) :
    (rankNodes cs ns).map Node.id = ns.map Node.id := by
  unfold rankNodes
  rw [List.map_map]
  rfl

theorem assignGhostNodes_ids (k : Nat) (ns : List Node) :
    (assignGhostNodes k ns).map Node.id = ns.map Node.id := by
  induction ns generalizing k with
  | nil => rfl
  | cons n t ih =>
    by_cases h : sharedNode n
    · rw [assignGhostNodes_cons, if_pos h, List.map_cons, List.map_cons,
        node_ghost_id, ih]
    · rw [assignGhostNodes_cons, if_neg h, List.map_cons, List.map_cons, ih]

theorem touchingRanks_mem_sub {cells : List Cell} {nid : Index} {a : Nat}
    (h : a ∈ touchingRanks cells nid) : ∃ c ∈ cells, c.rank = a := by
  unfold touchingRanks at h
  rw [List.mem_dedup] at h
  obtain ⟨c, hc, hval⟩ := List.mem_filterMap.mp h
  refine ⟨c, hc, ?_⟩
  by_cases hb : (c.nodes_id.contains nid) = true
  · rw [if_pos hb] at hval
    simpa using hval
  · rw [if_neg hb] at hval
    cases hval

theorem sum_map_ite_mem (L : List Nat) (t : List Nat) (f : Nat → Int) :
    (L.map (fun x => if x ∈ t then f x else 0)).sum
      = ((L.filter (fun x => decide (x ∈ t))).map f).sum := by
  induction L with
  | nil => rfl
  | cons a l ih =>
    rw [List.map_cons, List.sum_cons, List.filter_cons]
    by_cases h : a ∈ t
    · rw [if_pos h, decide_eq_true h, if_pos rfl, List.map_cons, List.sum_cons, ih]
    · rw [if_neg h, decide_eq_false h, if_neg Bool.false_ne_true, ih, Int.zero_add]

theorem touchingRanks_nodup (cells : List Cell) (nid : Index) :
    (touchingRanks cells nid).Nodup := by
  unfold touchingRanks
  exact List.nodup_dedup _

theorem sharedList_nodup (m : Mesh) (hnodup : (m.nodes.map Node.id).Nodup)
    (rq : Nat) : (sharedList rq (rankNodes m.cells m.nodes)).Nodup := by
  have h1 : ((rankNodes m.cells m.nodes).map Node.id).Nodup := by
    rw [rankNodes_ids]
    exact hnodup
  exact h1.sublist ((List.filter_sublist _).map Node.id)

theorem ghost_collision_free (m : Mesh)
    {x : Index} {nG : Node}
    (hfind : (assignGhostNodes 0 (rankNodes m.cells m.nodes)).find?
        (fun nd => nd.id == x) = some nG)
    (hsharedG : sharedNode nG = true) :
    ∀ rq : Nat, ∀ y ∈ sharedList rq (rankNodes m.cells m.nodes), y ≠ x →
      ∀ nY, (assignGhostNodes 0 (rankNodes m.cells m.nodes)).find?
          (fun nd => nd.id == y) = some nY → nY.ghost_id ≠ nG.ghost_id := by
  intro rq y hy hyx nY hfY
  have hYmem := List.mem_of_find?_eq_some hfY
  have hGmem := List.mem_of_find?_eq_some hfind
  have hYid : nY.id = y := by simpa using List.find?_some hfY
  have hGid : nG.id = x := by simpa using List.find?_some hfind
  obtain ⟨nd, hnd, hos, hndid⟩ := sharedList_mem.mp hy
  have hndranks : nd.mpi_ranks = touchingRanks m.cells nd.id := rankNodes_mem hnd
  have hYranks : nY.mpi_ranks = touchingRanks m.cells nY.id :=
    find_nodes_ranks m rq nY hYmem
  have hsharedY : sharedNode nY = true := by
    have h1 : 1 < nd.mpi_ranks.length := (ownedShared_iff.mp hos).1
    rw [hndranks, hndid, ← hYid, ← hYranks] at h1
    simpa [sharedNode] using h1
  have hne : nY ≠ nG := fun he => hyx (by rw [← hYid, he, hGid])
  have hpw := assignGhostNodes_pairwise 0 (rankNodes m.cells m.nodes)
  have hsymm : Symmetric (fun a b : Node => sharedNode a = true →
      sharedNode b = true → a.ghost_id ≠ b.ghost_id) :=
    fun a b hab hsb hsa => Ne.symm (hab hsa hsb)
  exact List.Pairwise.forall hsymm hpw hYmem hGmem hne hsharedY hsharedG

theorem sharedList_mem_iff_touching (m : Mesh) {n : Node} (hn : n ∈ m.nodes)
    (hlen : 1 < (touchingRanks m.cells n.id).length) (rq : Nat) :
    n.id ∈ sharedList rq (rankNodes m.cells m.nodes) ↔
      rq ∈ touchingRanks m.cells n.id := by
  constructor
  · intro h
    obtain ⟨nd, hnd, hos, hndid⟩ := sharedList_mem.mp h
    have h2 := (ownedShared_iff.mp hos).2
    rw [rankNodes_mem hnd, hndid] at h2
    exact h2
  · intro h
    refine sharedList_mem.mpr
      ⟨{ n with mpi_ranks := touchingRanks m.cells n.id },
       List.mem_map.mpr ⟨n, hn, rfl⟩,
       ownedShared_iff.mpr ⟨by simpa using hlen, by simpa using h⟩, rfl⟩

theorem fillBuf_value (m : Mesh) (hnodup : (m.nodes.map Node.id).Nodup)
    {n : Node} (hn : n ∈ m.nodes)
    (hlen : 1 < (touchingRanks m.cells n.id).length)
    {nG : Node}
    (hfind : (assignGhostNodes 0 (rankNodes m.cells m.nodes)).find?
        (fun nd => nd.id == n.id) = some nG)
    (rq : Nat) (g : Index → Int) :
    (fillBuf (m.find_domain_shared_nodes rq) g).getD nG.ghost_id 0
      = if n.id ∈ sharedList rq (rankNodes m.cells m.nodes) then g n.id else 0 := by
  have hGmem := List.mem_of_find?_eq_some hfind
  have hGid : nG.id = n.id := by simpa using List.find?_some hfind
  have hGranks : nG.mpi_ranks = touchingRanks m.cells nG.id :=
    find_nodes_ranks m rq nG hGmem
  have hsharedG : sharedNode nG = true := by
    have h1 := hlen
    rw [← hGid, ← hGranks] at h1
    simpa [sharedNode] using h1
  have hbound : nG.ghost_id < countShared (rankNodes m.cells m.nodes) := by
    have := (assignGhostNodes_ghost_bound hGmem hsharedG).2
    simpa using this
  have hshow : fillBuf (m.find_domain_shared_nodes rq) g
      = (sharedList rq (rankNodes m.cells m.nodes)).foldl
          (bufStep (assignGhostNodes 0 (rankNodes m.cells m.nodes)) g)
          (List.replicate (countShared (rankNodes m.cells m.nodes)) 0) := rfl
  rw [hshow]
  by_cases hmem : n.id ∈ sharedList rq (rankNodes m.cells m.nodes)
  · rw [if_pos hmem]
    exact foldl_bufStep_getD_target _ g nG.ghost_id n.id nG hfind rfl _ _
      (by simpa using hbound)
      (sharedList_nodup m hnodup rq) hmem
      (fun y hy hyx nY hfY => ghost_collision_free m hfind hsharedG rq y hy hyx nY hfY)
  · rw [if_neg hmem]
    rw [foldl_bufStep_getD_ne _ g nG.ghost_id _ _
      (fun y hy nY hfY => ghost_collision_free m hfind hsharedG rq y hy
        (fun he => hmem (he ▸ hy)) nY hfY)]
    exact getD_replicate_zero _ _

/-- C3: for every node shared across MPI domains, the halo exchange
(gather into the dense per-ghost-id buffer, MPI_SUM allreduce, scatter)
writes back, on every rank owning the node, the sum of the getter values
contributed independently by each rank owning that node. -/
theorem nodal_halo_exchange_sums (m : Mesh) (R : Nat)
    (getter : Nat → Index → Int) (r : Nat) (n : Node)
    (hnodup : (m.nodes.map Node.id).Nodup)
    (hranks : ∀ c ∈ m.cells, c.rank < R)
    (hn : n ∈ m.nodes)
    (hmem : n.id ∈ (m.find_domain_shared_nodes r).domain_shared_nodes) :
    m.nodal_halo_exchange_value R getter r n.id =
      ((touchingRanks m.cells n.id).map (fun rq => getter rq n.id)).sum := by
  have hmem1 : n.id ∈ sharedList r (rankNodes m.cells m.nodes) := hmem
  obtain ⟨nd, hnd, hos, hndid⟩ := sharedList_mem.mp hmem1
  have hlen : 1 < (touchingRanks m.cells n.id).length := by
    have h1 := (ownedShared_iff.mp hos).1
    rw [rankNodes_mem hnd, hndid] at h1
    exact h1
  have hin : n.id ∈ (assignGhostNodes 0 (rankNodes m.cells m.nodes)).map Node.id := by
    rw [assignGhostNodes_ids, rankNodes_ids]
    exact List.mem_map.mpr ⟨n, hn, rfl⟩
  obtain ⟨nG2, hnG2mem, hnG2id⟩ := List.mem_map.mp hin
  have hfindSome : ((assignGhostNodes 0 (rankNodes m.cells m.nodes)).find?
      (fun nd => nd.id == n.id)).isSome :=
    List.find?_isSome.mpr ⟨nG2, hnG2mem, by simp [hnG2id]⟩
  obtain ⟨nG, hfind⟩ := Option.isSome_iff_exists.mp hfindSome
  have hfind2 : (m.find_domain_shared_nodes r).nodes.find?
      (fun nd => nd.id == n.id) = some nG := hfind
  have hGmem := List.mem_of_find?_eq_some hfind
  have hGid : nG.id = n.id := by simpa using List.find?_some hfind
  have hGranks : nG.mpi_ranks = touchingRanks m.cells nG.id :=
    find_nodes_ranks m r nG hGmem
  have hsharedG : sharedNode nG = true := by
    have h1 := hlen
    rw [← hGid, ← hGranks] at h1
    simpa [sharedNode] using h1
  have hbound : nG.ghost_id < countShared (rankNodes m.cells m.nodes) := by
    have := (assignGhostNodes_ghost_bound hGmem hsharedG).2
    simpa using this
  have hbuflen : ∀ rq, (fillBuf (m.find_domain_shared_nodes rq) (getter rq)).length
      = countShared (rankNodes m.cells m.nodes) := by
    intro rq
    show ((sharedList rq (rankNodes m.cells m.nodes)).foldl
        (bufStep (assignGhostNodes 0 (rankNodes m.cells m.nodes)) (getter rq))
        (List.replicate (countShared (rankNodes m.cells m.nodes)) 0)).length = _
    rw [foldl_bufStep_length, List.length_replicate]
  unfold Mesh.nodal_halo_exchange_value
  rw [hfind2]
  show (allreduceSum R (fun rq => fillBuf (m.find_domain_shared_nodes rq) (getter rq))
      (countShared (rankNodes m.cells m.nodes))).getD nG.ghost_id 0 = _
  unfold allreduceSum
  rw [foldl_zipWith_getD _ _ hbuflen nG.ghost_id hbound _ _ (List.length_replicate _ _),
    getD_replicate_zero]
  rw [List.map_congr_left (fun rq _ => fillBuf_value m hnodup hn hlen hfind rq (getter rq))]
  have hiff : ∀ rq, (n.id ∈ sharedList rq (rankNodes m.cells m.nodes)) ↔
      rq ∈ touchingRanks m.cells n.id :=
    fun rq => sharedList_mem_iff_touching m hn hlen rq
  rw [List.map_congr_left (fun rq _ => if_congr (hiff rq) rfl rfl)]
  rw [sum_map_ite_mem]
  have hperm : List.Perm
      ((List.range R).filter (fun x => decide (x ∈ touchingRanks m.cells n.id)))
      (touchingRanks m.cells n.id) := by
    refine (List.perm_ext_iff_of_nodup ((List.nodup_range R).filter _)
      (touchingRanks_nodup m.cells n.id)).mpr ?_
    intro a
    constructor
    · intro ha
      have := List.mem_filter.mp ha
      simpa using this.2
    · intro ha
      refine List.mem_filter.mpr ⟨?_, by simpa using ha⟩
      obtain ⟨c, hc, hcr⟩ := touchingRanks_mem_sub ha
      exact List.mem_range.mpr (hcr ▸ hranks c hc)
  rw [Int.zero_add, (hperm.map (fun rq => getter rq n.id)).sum_eq]

/-- Nodal contributions of the witness scenario: rank 0 contributes 5, rank
1 contributes 3 (standing for the nodal masses 5.0 and 3.0). -/
def haloGetter : Nat → Index → Int := fun rq _ => if rq = 0 then 5 else 3

/-- The middle node of twoRankMesh, shared by the two ranks. -/
def nodeOne : Node := { id := 1 }

/-- Witness for C3: on both ranks of the two-rank mesh, the exchanged value
at the shared node is 5 + 3 = 8. -/
theorem nodal_halo_exchange_sums_witness :
    twoRankMesh.nodal_halo_exchange_value 2 haloGetter 0 nodeOne.id = 8 ∧
    twoRankMesh.nodal_halo_exchange_value 2 haloGetter 1 nodeOne.id = 8 := by
  have h0 := nodal_halo_exchange_sums twoRankMesh 2 haloGetter 0 nodeOne
    (by decide) (by decide) (by decide) (by decide)
  have h1 := nodal_halo_exchange_sums twoRankMesh 2 haloGetter 1 nodeOne
    (by decide) (by decide) (by decide) (by decide)
  constructor
  · rw [h0]
    decide
  · rw [h1]
    decide

end MPM
